import Mathlib

/-!
Shallow embedding of the identity-reconciliation service
(`src/routes/identify.ts` together with the Prisma storage layer).

The store is a list of `Contact` rows kept in insertion order; Prisma's
auto-increment id and creation timestamp are modelled by `nextId` /
`nextTime` counters.  The `POST /identify` handler is embedded as the pure
function `identify`, composed of the pipeline stages the route performs:
matching (`matchingContacts`), root resolution (`primaryIdsOf`), the merge
transaction (`runMergeTransaction`), cluster extension and response
composition (`afterMerge`, `composeResponse`).  The outcome of the Prisma
interactive transaction wrapping the two merge writes is an explicit
`TxOutcome` parameter: on `commit` both `updateMany` writes are applied, on
`abort` the store rolls back and the request fails.
-/

namespace Reconcile

/-- `linkPrecedence` column: `"primary" | "secondary"`. -/
inductive Precedence where
  | primary
  | secondary
deriving Repr, DecidableEq

/-- One row of the `Contact` table (`prisma/schema.prisma`). -/
structure Contact where
  id : Nat
  email : Option String
  phoneNumber : Option String
  linkPrecedence : Precedence
  linkedId : Option Nat
  createdAt : Nat
  deletedAt : Option Nat
deriving Repr, DecidableEq

/-- The relational store plus Prisma's id / timestamp generators.
`contacts` is kept in insertion order, i.e. ascending `id`. -/
structure DB where
  contacts : List Contact
  nextId : Nat
  nextTime : Nat
deriving Repr, DecidableEq

/-- The empty store the service starts from. -/
def emptyDB : DB := { contacts := [], nextId := 1, nextTime := 0 }

/-- Outcome of the Prisma interactive transaction: the unit of work either
commits or is rolled back by the store. -/
inductive TxOutcome where
  | commit
  | abort
deriving Repr, DecidableEq

/-- Shape of the consolidated response body (`contact: {...}`); the field
name `primaryContatctId` is the external contract's spelling, kept verbatim. -/
structure IdentifyResponse where
  primaryContatctId : Nat
  emails : List String
  phoneNumbers : List String
  secondaryContactIds : List Nat
deriving Repr, DecidableEq

/-- JavaScript truthiness of an optional string: `undefined`, `null` and
`""` are falsy, every other string is truthy. -/
def truthy : Option String → Bool
  | none => false
  | some s => !(s == "")

/-- `v || null`: store the value only when it is truthy. -/
def orNull (v : Option String) : Option String :=
  if truthy v then v else none

/-- `v ? [v] : []` on an optional string field. -/
def optList : Option String → List String
  | none => []
  | some s => if s == "" then [] else [s]

/-- The `OR` conditions of the matching query: a condition is pushed for a
field only when the incoming value is truthy, and it requires exact
equality on that column. -/
def matchesRequest (email phone : Option String) (c : Contact) : Bool :=
  (truthy email && c.email == email) || (truthy phone && c.phoneNumber == phone)

/-- Stable insertion of a row into a list ordered by `createdAt`:
the row is placed after every strictly older row. -/
def insertByTime (c : Contact) : List Contact → List Contact
  | [] => [c]
  | d :: ds => if d.createdAt < c.createdAt then d :: insertByTime c ds else c :: d :: ds

/-- `orderBy: { createdAt: "asc" }` on a query result.  The query has no
secondary sort key, so the store guarantees only that the result is
`createdAt`-ascending; this function fixes one concrete admissible order
(a stable sort of the insertion order) so the pipeline is a function.
Statements about the order of equal-`createdAt` rows are made against
`IsSortedFetch`, which admits every `createdAt`-ascending arrangement, not
against this choice. -/
def sortByCreatedAt : List Contact → List Contact
  | [] => []
  | c :: cs => insertByTime c (sortByCreatedAt cs)

/-- STEP 1 (Matcher): all non-deleted contacts matching the email or the
phone, in ascending `createdAt` order. -/
def matchingContacts (db : DB) (email phone : Option String) : List Contact :=
  sortByCreatedAt (db.contacts.filter fun c =>
    c.deletedAt.isNone && matchesRequest email phone c)

/-- Add to the `Set` of primary ids (JS sets keep insertion order). -/
def addRoot (acc : List Nat) (x : Nat) : List Nat :=
  if x ∈ acc then acc else acc ++ [x]

/-- The root a single row contributes: its own id when it is a primary,
its `linkedId` when it is a secondary. -/
def rootOf (c : Contact) : Option Nat :=
  match c.linkPrecedence with
  | .primary => some c.id
  | .secondary => c.linkedId

/-- STEP 2 (Resolver): the distinct primary ids collected from the match
set, in first-seen order. -/
def primaryIdsOf (ms : List Contact) : List Nat :=
  ms.foldl
    (fun acc c =>
      match c.linkPrecedence with
      | .primary => addRoot acc c.id
      | .secondary =>
        match c.linkedId with
        | some l => addRoot acc l
        | none => acc)
    []

/-- The Resolver applied to the request's match set. -/
def rootsOf (db : DB) (email phone : Option String) : List Nat :=
  primaryIdsOf (matchingContacts db email phone)

/-- `prisma.contact.create`: a fresh row with the generated id and
timestamp, appended to the store. -/
def createContact (db : DB) (email phone : Option String)
    (prec : Precedence) (linked : Option Nat) : DB × Contact :=
  let c : Contact :=
    { id := db.nextId
      email := orNull email
      phoneNumber := orNull phone
      linkPrecedence := prec
      linkedId := linked
      createdAt := db.nextTime
      deletedAt := none }
  ({ contacts := db.contacts ++ [c], nextId := db.nextId + 1, nextTime := db.nextTime + 1 }, c)

/-- Fetch of the primary rows touched by a merge:
`where: { id: { in: roots } }, orderBy: { createdAt: "asc" }`
(note: no `deletedAt` filter). -/
def fetchPrimaries (db : DB) (roots : List Nat) : List Contact :=
  sortByCreatedAt (db.contacts.filter fun c => c.id ∈ roots)

/-- First merge write (`updateMany` on `id in otherIds`): demote a row to
secondary under the surviving primary (no `deletedAt` filter). -/
def demoteOne (others : List Nat) (root : Nat) (c : Contact) : Contact :=
  if c.id ∈ others then
    { c with linkedId := some root, linkPrecedence := .secondary }
  else c

/-- Second merge write (`updateMany` on `linkedId in otherIds`): re-point a
row at the surviving primary (no `deletedAt` filter). -/
def relinkOne (others : List Nat) (root : Nat) (c : Contact) : Contact :=
  match c.linkedId with
  | some l => if l ∈ others then { c with linkedId := some root } else c
  | none => c

/-- The Merger's two dependent writes applied in sequence. -/
def mergeUnit (db : DB) (others : List Nat) (root : Nat) : DB :=
  { db with contacts :=
      (db.contacts.map (demoteOne others root)).map (relinkOne others root) }

/-- `prisma.$transaction` around the two merge writes: the unit of work
either commits with both writes applied, or aborts with the store rolled
back; no other post-state is possible. -/
def runMergeTransaction (db : DB) (others : List Nat) (root : Nat) :
    TxOutcome → DB × Bool
  | .commit => (mergeUnit db others root, true)
  | .abort => (db, false)

/-- STEP 3 fetch: the full cluster of the root — the root row plus every
row linked to it, non-deleted only, ascending `createdAt`. -/
def fetchCluster (db : DB) (root : Nat) : List Contact :=
  sortByCreatedAt (db.contacts.filter fun c =>
    c.deletedAt.isNone && (c.id == root || c.linkedId == some root))

/-- `new Set(cluster.map(c => c.email).filter(Boolean))`. -/
def knownEmails (cluster : List Contact) : List String :=
  (cluster.filterMap Contact.email).filter fun s => !(s == "")

/-- `new Set(cluster.map(c => c.phoneNumber).filter(Boolean))`. -/
def knownPhones (cluster : List Contact) : List String :=
  (cluster.filterMap Contact.phoneNumber).filter fun s => !(s == "")

/-- `v && !known.has(v)`: the incoming value is truthy and not yet known. -/
def isNewInfo (known : List String) (v : Option String) : Bool :=
  match v with
  | some s => !(s == "") && !(known.contains s)
  | none => false

/-- `if (v && !list.includes(v)) list.push(v)`. -/
def pushIfNew (xs : List String) (v : Option String) : List String :=
  match v with
  | some s => if s == "" then xs else if xs.contains s then xs else xs ++ [s]
  | none => xs

/-- The Composer's loop over the cluster: rows with the root id are
skipped, every other row contributes its truthy email/phone if unseen and
its id unconditionally. -/
def composeLoop (root : Nat) :
    List Contact → List String × List String × List Nat →
      List String × List String × List Nat
  | [], acc => acc
  | c :: cs, (es, ps, ids) =>
    if c.id == root then composeLoop root cs (es, ps, ids)
    else composeLoop root cs (pushIfNew es c.email, pushIfNew ps c.phoneNumber, ids ++ [c.id])

/-- STEP 4 (Composer): consolidated response — the primary's truthy email
and phone seeded first, then the cluster loop. -/
def composeResponse (cluster : List Contact) (root : Nat) (primary : Contact) :
    IdentifyResponse :=
  let acc := composeLoop root cluster
    (pushIfNew [] primary.email, pushIfNew [] primary.phoneNumber, [])
  { primaryContatctId := root
    emails := acc.1
    phoneNumbers := acc.2.1
    secondaryContactIds := acc.2.2 }

/-- STEP 3 onward, once a single root primary id is known: fetch the
cluster, create the extending secondary when the request carries new info,
then compose the response around the root row (`cluster.find(...)!`; a
missing root row makes the handler throw, surfaced as a 500). -/
def afterMerge (db : DB) (root : Nat) (email phone : Option String) :
    DB × Except String IdentifyResponse :=
  let cluster := fetchCluster db root
  if isNewInfo (knownEmails cluster) email || isNewInfo (knownPhones cluster) phone then
    let dc := createContact db email phone .secondary (some root)
    match (cluster ++ [dc.2]).find? (fun c => c.id == root) with
    | none => (dc.1, Except.error "Internal server error")
    | some primary => (dc.1, Except.ok (composeResponse (cluster ++ [dc.2]) root primary))
  else
    match cluster.find? (fun c => c.id == root) with
    | none => (db, Except.error "Internal server error")
    | some primary => (db, Except.ok (composeResponse cluster root primary))

/-- The full `POST /identify` handler: validation guard, matcher, resolver,
then the three scenarios (new primary / merge / single root).  The result
pairs the post-state of the store with the response or the error the
request surfaces. -/
def identify (db : DB) (email phone : Option String) (tx : TxOutcome) :
    DB × Except String IdentifyResponse :=
  if !truthy email && !truthy phone then
    (db, Except.error "At least one of email or phoneNumber is required.")
  else
    match rootsOf db email phone with
    | [] =>
      let dc := createContact db email phone .primary none
      (dc.1, Except.ok
        { primaryContatctId := dc.2.id
          emails := optList dc.2.email
          phoneNumbers := optList dc.2.phoneNumber
          secondaryContactIds := [] })
    | r :: rest =>
      if (r :: rest).length > 1 then
        match fetchPrimaries db (r :: rest) with
        | [] => (db, Except.error "Internal server error")
        | oldest :: others =>
          let rootPrimaryId := oldest.id
          let otherIds := others.map Contact.id
          let txr := runMergeTransaction db otherIds rootPrimaryId tx
          if txr.2 then afterMerge txr.1 rootPrimaryId email phone
          else (txr.1, Except.error "Internal server error")
      else afterMerge db r email phone

/-! ### Facts about the `createdAt` sort -/

theorem insertByTime_perm (c : Contact) (l : List Contact) :
    (insertByTime c l).Perm (c :: l) := by
  induction l with
  | nil => exact List.Perm.refl _
  | cons d ds ih =>
    simp only [insertByTime]
    by_cases h : d.createdAt < c.createdAt
    · simp only [if_pos h]
      exact (ih.cons d).trans (List.Perm.swap c d ds)
    · simp only [if_neg h]
      exact List.Perm.refl _

theorem sortByCreatedAt_perm (l : List Contact) : (sortByCreatedAt l).Perm l := by
  induction l with
  | nil => exact List.Perm.refl _
  | cons c cs ih =>
    exact (insertByTime_perm c (sortByCreatedAt cs)).trans (ih.cons c)

theorem mem_sortByCreatedAt {a : Contact} {l : List Contact} :
    a ∈ sortByCreatedAt l ↔ a ∈ l :=
  (sortByCreatedAt_perm l).mem_iff

theorem insertByTime_sorted {c : Contact} {l : List Contact}
    (hl : l.Pairwise fun a b => a.createdAt ≤ b.createdAt) :
    (insertByTime c l).Pairwise fun a b => a.createdAt ≤ b.createdAt := by
  induction l with
  | nil => simp [insertByTime]
  | cons d ds ih =>
    rw [List.pairwise_cons] at hl
    obtain ⟨hd, hds⟩ := hl
    simp only [insertByTime]
    by_cases h : d.createdAt < c.createdAt
    · rw [if_pos h, List.pairwise_cons]
      refine ⟨?_, ih hds⟩
      intro x hx
      rcases List.mem_cons.1 ((insertByTime_perm c ds).mem_iff.1 hx) with rfl | hx
      · exact le_of_lt h
      · exact hd x hx
    · rw [if_neg h, List.pairwise_cons]
      refine ⟨?_, List.pairwise_cons.2 ⟨hd, hds⟩⟩
      intro x hx
      rcases List.mem_cons.1 hx with rfl | hx
      · exact le_of_not_lt h
      · exact le_trans (le_of_not_lt h) (hd x hx)

theorem sortByCreatedAt_sorted (l : List Contact) :
    (sortByCreatedAt l).Pairwise fun a b => a.createdAt ≤ b.createdAt := by
  induction l with
  | nil => simp [sortByCreatedAt]
  | cons c cs ih => exact insertByTime_sorted ih

/-- What the primaries fetch actually guarantees: the query filters the
store by the resolved ids and orders by `createdAt` ascending with no
secondary sort key, so an admissible result is any `createdAt`-ascending
arrangement of the filtered rows — for equal `createdAt` values the store
pins down no order. -/
def IsSortedFetch (db : DB) (rs : List Nat) (l : List Contact) : Prop :=
  l.Perm (db.contacts.filter fun c => c.id ∈ rs) ∧
  l.Pairwise fun a b => a.createdAt ≤ b.createdAt

/-- The pipeline's concrete order is one admissible result of the query. -/
theorem fetchPrimaries_isSortedFetch (db : DB) (rs : List Nat) :
    IsSortedFetch db rs (fetchPrimaries db rs) :=
  ⟨sortByCreatedAt_perm _, sortByCreatedAt_sorted _⟩

/-! ### Facts about the Resolver -/

theorem mem_addRoot {x y : Nat} {acc : List Nat} :
    x ∈ addRoot acc y ↔ x ∈ acc ∨ x = y := by
  by_cases h : y ∈ acc
  · simp only [addRoot, if_pos h]
    constructor
    · exact Or.inl
    · rintro (hx | rfl)
      · exact hx
      · exact h
  · simp [addRoot, if_neg h]

theorem nodup_addRoot {y : Nat} {acc : List Nat} (h : acc.Nodup) :
    (addRoot acc y).Nodup := by
  by_cases hy : y ∈ acc
  · simpa [addRoot, if_pos hy] using h
  · simp [addRoot, if_neg hy, List.nodup_append, h, hy]

/-- Generalised form of the Resolver's loop, keyed on `rootOf`. -/
def collectRoots (acc : List Nat) : List Contact → List Nat
  | [] => acc
  | c :: cs =>
    collectRoots (match rootOf c with | some x => addRoot acc x | none => acc) cs

theorem primaryIdsOf_eq_collectRoots (ms : List Contact) :
    primaryIdsOf ms = collectRoots [] ms := by
  suffices h : ∀ acc, ms.foldl
      (fun acc c =>
        match c.linkPrecedence with
        | .primary => addRoot acc c.id
        | .secondary =>
          match c.linkedId with
          | some l => addRoot acc l
          | none => acc)
      acc = collectRoots acc ms from h []
  induction ms with
  | nil => intro acc; rfl
  | cons c cs ih =>
    intro acc
    simp only [List.foldl_cons, collectRoots]
    have hstep : (match c.linkPrecedence with
        | Precedence.primary => addRoot acc c.id
        | Precedence.secondary =>
          match c.linkedId with
          | some l => addRoot acc l
          | none => acc)
        = (match rootOf c with | some x => addRoot acc x | none => acc) := by
      cases hp : c.linkPrecedence <;> simp [rootOf, hp]
    rw [hstep, ih]

theorem mem_collectRoots {x : Nat} {acc : List Nat} {ms : List Contact} :
    x ∈ collectRoots acc ms ↔ x ∈ acc ∨ ∃ c ∈ ms, rootOf c = some x := by
  induction ms generalizing acc with
  | nil => simp [collectRoots]
  | cons c cs ih =>
    simp only [collectRoots]
    cases h : rootOf c with
    | none =>
      rw [ih]
      simp only [List.mem_cons]
      constructor
      · rintro (hx | ⟨d, hd, hroot⟩)
        · exact Or.inl hx
        · exact Or.inr ⟨d, Or.inr hd, hroot⟩
      · rintro (hx | ⟨d, rfl | hd, hroot⟩)
        · exact Or.inl hx
        · rw [h] at hroot; cases hroot
        · exact Or.inr ⟨d, hd, hroot⟩
    | some x0 =>
      rw [ih]
      simp only [mem_addRoot, List.mem_cons]
      constructor
      · rintro ((hx | rfl) | ⟨d, hd, hroot⟩)
        · exact Or.inl hx
        · exact Or.inr ⟨c, Or.inl rfl, h⟩
        · exact Or.inr ⟨d, Or.inr hd, hroot⟩
      · rintro (hx | ⟨d, rfl | hd, hroot⟩)
        · exact Or.inl (Or.inl hx)
        · rw [h] at hroot
          exact Or.inl (Or.inr (Option.some_injective _ hroot.symm))
        · exact Or.inr ⟨d, hd, hroot⟩

theorem nodup_collectRoots {acc : List Nat} {ms : List Contact} (h : acc.Nodup) :
    (collectRoots acc ms).Nodup := by
  induction ms generalizing acc with
  | nil => exact h
  | cons c cs ih =>
    simp only [collectRoots]
    cases hr : rootOf c
    · exact ih h
    · exact ih (nodup_addRoot h)

theorem mem_primaryIdsOf {x : Nat} {ms : List Contact} :
    x ∈ primaryIdsOf ms ↔ ∃ c ∈ ms, rootOf c = some x := by
  rw [primaryIdsOf_eq_collectRoots, mem_collectRoots]
  simp

theorem nodup_primaryIdsOf (ms : List Contact) : (primaryIdsOf ms).Nodup := by
  rw [primaryIdsOf_eq_collectRoots]
  exact nodup_collectRoots (List.nodup_nil)

/-! ### Membership in the query results -/

theorem mem_matchingContacts {c : Contact} {db : DB} {e p : Option String} :
    c ∈ matchingContacts db e p ↔
      c ∈ db.contacts ∧ c.deletedAt = none ∧ matchesRequest e p c = true := by
  unfold matchingContacts
  rw [mem_sortByCreatedAt, List.mem_filter]
  simp [Option.isNone_iff_eq_none, and_assoc]

theorem mem_fetchPrimaries {q : Contact} {db : DB} {rs : List Nat} :
    q ∈ fetchPrimaries db rs ↔ q ∈ db.contacts ∧ q.id ∈ rs := by
  unfold fetchPrimaries
  rw [mem_sortByCreatedAt, List.mem_filter]
  simp

theorem mem_fetchCluster {c : Contact} {db : DB} {root : Nat} :
    c ∈ fetchCluster db root ↔
      c ∈ db.contacts ∧ c.deletedAt = none ∧ (c.id = root ∨ c.linkedId = some root) := by
  unfold fetchCluster
  rw [mem_sortByCreatedAt, List.mem_filter]
  simp [Option.isNone_iff_eq_none, and_assoc]

/-! ### The data-model invariants -/

/-- A `linkedId` value, when present, names an existing primary row. -/
def resolvesToPrimary (db : DB) : Option Nat → Prop
  | none => True
  | some l => ∃ q ∈ db.contacts, q.id = l ∧ q.linkPrecedence = Precedence.primary

instance (db : DB) : (o : Option Nat) → Decidable (resolvesToPrimary db o)
  | none => Decidable.isTrue trivial
  | some l =>
    inferInstanceAs (Decidable (∃ q ∈ db.contacts, q.id = l ∧ q.linkPrecedence = Precedence.primary))

/-- Key confinement: any two non-deleted rows sharing a truthy email
(resp. phone) resolve to the same root.  This is what makes one request
touch at most one root per key. -/
def KeyInv (db : DB) : Prop :=
  ∀ c ∈ db.contacts, ∀ d ∈ db.contacts,
    c.deletedAt = none → d.deletedAt = none →
      (truthy c.email = true → c.email = d.email → rootOf c = rootOf d) ∧
      (truthy c.phoneNumber = true → c.phoneNumber = d.phoneNumber → rootOf c = rootOf d)

instance (db : DB) : Decidable (KeyInv db) := by
  unfold KeyInv; exact inferInstance

/-- Well-formedness of the store: rows in ascending-id insertion order with
ids below the generator, primaries carry no `linkedId`, secondaries carry a
`linkedId` resolving to an existing primary, and keys are confined to one
root. -/
def GoodDB (db : DB) : Prop :=
  db.contacts.Pairwise (fun a b => a.id < b.id) ∧
  (∀ c ∈ db.contacts, c.id < db.nextId) ∧
  (∀ c ∈ db.contacts, c.linkPrecedence = .primary → c.linkedId = none) ∧
  (∀ c ∈ db.contacts, c.linkPrecedence = .secondary →
      c.linkedId.isSome = true ∧ resolvesToPrimary db c.linkedId) ∧
  KeyInv db

instance (db : DB) : Decidable (GoodDB db) := by
  unfold GoodDB; exact inferInstance

/-- Every non-deleted row carrying the request's truthy email (resp.
phone) resolves to `root`. -/
def RootKey (db : DB) (root : Nat) (e p : Option String) : Prop :=
  ∀ d ∈ db.contacts, d.deletedAt = none →
    (truthy e = true → d.email = e → rootOf d = some root) ∧
    (truthy p = true → d.phoneNumber = p → rootOf d = some root)

instance (db : DB) (root : Nat) (e p : Option String) : Decidable (RootKey db root e p) := by
  unfold RootKey; exact inferInstance

theorem pairwise_id_inj {l : List Contact}
    (h : l.Pairwise fun a b => a.id < b.id) :
    ∀ a ∈ l, ∀ b ∈ l, a.id = b.id → a = b := by
  induction l with
  | nil => intro a ha; cases ha
  | cons x xs ih =>
    rw [List.pairwise_cons] at h
    obtain ⟨hx, hxs⟩ := h
    intro a ha b hb heq
    rcases List.mem_cons.1 ha with rfl | ha2
    · rcases List.mem_cons.1 hb with rfl | hb2
      · rfl
      · exact absurd heq (ne_of_lt (hx b hb2))
    · rcases List.mem_cons.1 hb with rfl | hb2
      · exact absurd heq.symm (ne_of_lt (hx a ha2))
      · exact ih hxs a ha2 b hb2 heq

theorem rootOf_isSome {db : DB} {d : Contact}
    (hdb : GoodDB db) (hd : d ∈ db.contacts) : ∃ x, rootOf d = some x := by
  obtain ⟨_, _, _, hsec, _⟩ := hdb
  cases hp : d.linkPrecedence with
  | primary => exact ⟨d.id, by simp [rootOf, hp]⟩
  | secondary =>
    obtain ⟨hs, _⟩ := hsec d hd hp
    obtain ⟨l, hl⟩ := Option.isSome_iff_exists.1 hs
    exact ⟨l, by simp [rootOf, hp, hl]⟩

theorem roots_are_primary {db : DB} {e p : Option String} {r : Nat}
    (hdb : GoodDB db) (hr : r ∈ rootsOf db e p) :
    ∃ q ∈ db.contacts, q.id = r ∧ q.linkPrecedence = .primary := by
  obtain ⟨c, hc, hroot⟩ := mem_primaryIdsOf.1 hr
  have hcdb := (mem_matchingContacts.1 hc).1
  obtain ⟨_, _, _, hsec, _⟩ := hdb
  cases hp : c.linkPrecedence with
  | primary =>
    simp only [rootOf, hp, Option.some.injEq] at hroot
    exact ⟨c, hcdb, hroot, hp⟩
  | secondary =>
    obtain ⟨_, hres⟩ := hsec c hcdb hp
    simp only [rootOf, hp] at hroot
    rw [hroot] at hres
    exact hres

theorem no_match_of_roots_nil {db : DB} {e p : Option String}
    (hdb : GoodDB db) (h : rootsOf db e p = []) :
    ∀ d ∈ db.contacts, d.deletedAt = none → matchesRequest e p d = false := by
  intro d hd hdel
  by_contra hm
  have hm' : matchesRequest e p d = true := by
    cases hv : matchesRequest e p d
    · exact absurd hv hm
    · rfl
  have hdm : d ∈ matchingContacts db e p := mem_matchingContacts.2 ⟨hd, hdel, hm'⟩
  obtain ⟨x, hx⟩ := rootOf_isSome hdb hd
  have : x ∈ rootsOf db e p := mem_primaryIdsOf.2 ⟨d, hdm, hx⟩
  rw [h] at this
  cases this

/-! ### Elementary facts about truthiness -/

theorem orNull_eq_self {v : Option String} (h : truthy v = true) : orNull v = v := by
  simp [orNull, h]

theorem truthy_orNull (v : Option String) : truthy (orNull v) = truthy v := by
  cases hv : truthy v
  · rw [orNull, hv]
    simp [truthy]
  · rw [orNull_eq_self hv]
    exact hv

theorem matchesRequest_email {e p : Option String} {d : Contact}
    (hte : truthy e = true) (heq : d.email = e) : matchesRequest e p d = true := by
  simp [matchesRequest, hte, heq]

theorem matchesRequest_phone {e p : Option String} {d : Contact}
    (htp : truthy p = true) (heq : d.phoneNumber = p) : matchesRequest e p d = true := by
  simp [matchesRequest, htp, heq]

theorem matchesRequest_cases {e p : Option String} {d : Contact}
    (h : matchesRequest e p d = true) :
    (truthy e = true ∧ d.email = e) ∨ (truthy p = true ∧ d.phoneNumber = p) := by
  simp only [matchesRequest, Bool.or_eq_true, Bool.and_eq_true, beq_iff_eq] at h
  exact h

/-! ### The effect of the Merger's two writes on one row -/

/-- A single row's image under the demote write followed by the relink
write. -/
def mergeOne (others : List Nat) (root : Nat) (c : Contact) : Contact :=
  relinkOne others root (demoteOne others root c)

theorem mergeUnit_contacts (db : DB) (others : List Nat) (root : Nat) :
    (mergeUnit db others root).contacts = db.contacts.map (mergeOne others root) := by
  simp only [mergeUnit, List.map_map]
  rfl

theorem mergeUnit_nextId (db : DB) (others : List Nat) (root : Nat) :
    (mergeUnit db others root).nextId = db.nextId := rfl

theorem mergeUnit_nextTime (db : DB) (others : List Nat) (root : Nat) :
    (mergeUnit db others root).nextTime = db.nextTime := rfl

theorem mergeOne_demoted {others : List Nat} {root : Nat} {c : Contact}
    (hroot : root ∉ others) (hc : c.id ∈ others) :
    mergeOne others root c = { c with linkPrecedence := .secondary, linkedId := some root } := by
  unfold mergeOne demoteOne relinkOne
  rw [if_pos hc]
  simp [hroot]

theorem mergeOne_relinked {others : List Nat} {root l : Nat} {c : Contact}
    (hc : c.id ∉ others) (hl : c.linkedId = some l) (hmem : l ∈ others) :
    mergeOne others root c = { c with linkedId := some root } := by
  unfold mergeOne demoteOne relinkOne
  rw [if_neg hc]
  simp [hl, hmem]

theorem mergeOne_untouched {others : List Nat} {root : Nat} {c : Contact}
    (hc : c.id ∉ others) (hl : ∀ l, c.linkedId = some l → l ∉ others) :
    mergeOne others root c = c := by
  unfold mergeOne demoteOne relinkOne
  rw [if_neg hc]
  cases hlv : c.linkedId with
  | none => rfl
  | some l => simp [hl l hlv]

theorem mergeOne_id (others : List Nat) (root : Nat) (c : Contact) :
    (mergeOne others root c).id = c.id := by
  unfold mergeOne demoteOne relinkOne
  by_cases hc : c.id ∈ others
  · rw [if_pos hc]; simp
  · rw [if_neg hc]
    cases c.linkedId with
    | none => rfl
    | some l => by_cases hm : l ∈ others <;> simp [hm]

theorem mergeOne_email (others : List Nat) (root : Nat) (c : Contact) :
    (mergeOne others root c).email = c.email := by
  unfold mergeOne demoteOne relinkOne
  by_cases hc : c.id ∈ others
  · rw [if_pos hc]; simp
  · rw [if_neg hc]
    cases c.linkedId with
    | none => rfl
    | some l => by_cases hm : l ∈ others <;> simp [hm]

theorem mergeOne_phone (others : List Nat) (root : Nat) (c : Contact) :
    (mergeOne others root c).phoneNumber = c.phoneNumber := by
  unfold mergeOne demoteOne relinkOne
  by_cases hc : c.id ∈ others
  · rw [if_pos hc]; simp
  · rw [if_neg hc]
    cases c.linkedId with
    | none => rfl
    | some l => by_cases hm : l ∈ others <;> simp [hm]

theorem mergeOne_deletedAt (others : List Nat) (root : Nat) (c : Contact) :
    (mergeOne others root c).deletedAt = c.deletedAt := by
  unfold mergeOne demoteOne relinkOne
  by_cases hc : c.id ∈ others
  · rw [if_pos hc]; simp
  · rw [if_neg hc]
    cases c.linkedId with
    | none => rfl
    | some l => by_cases hm : l ∈ others <;> simp [hm]

theorem mergeOne_precedence_of_not_mem {others : List Nat} {root : Nat} {c : Contact}
    (hc : c.id ∉ others) :
    (mergeOne others root c).linkPrecedence = c.linkPrecedence := by
  unfold mergeOne demoteOne relinkOne
  rw [if_neg hc]
  cases c.linkedId with
  | none => rfl
  | some l => by_cases hm : l ∈ others <;> simp [hm]

theorem rootOf_mergeOne {others : List Nat} {root : Nat} {c : Contact}
    (hroot : root ∉ others)
    (hprim : c.linkPrecedence = .primary → c.linkedId = none)
    (hsec : c.linkPrecedence = .secondary → c.id ∉ others) :
    rootOf (mergeOne others root c) =
      (rootOf c).map fun x => if x ∈ others then root else x := by
  cases hp : c.linkPrecedence with
  | primary =>
    have hnone := hprim hp
    by_cases hid : c.id ∈ others
    · rw [mergeOne_demoted hroot hid]
      simp [rootOf, hp, hid]
    · rw [mergeOne_untouched hid (fun l hl => by rw [hnone] at hl; cases hl)]
      simp [rootOf, hp, hid]
  | secondary =>
    have hid := hsec hp
    cases hlv : c.linkedId with
    | none =>
      rw [mergeOne_untouched hid (fun l hl => by rw [hlv] at hl; cases hl)]
      simp [rootOf, hp, hlv]
    | some l =>
      by_cases hm : l ∈ others
      · rw [mergeOne_relinked hid hlv hm]
        simp [rootOf, hp, hlv, hm]
      · rw [mergeOne_untouched hid (fun l' hl' => by
          rw [hlv] at hl'
          obtain rfl := Option.some_injective _ hl'
          exact hm)]
        simp [rootOf, hp, hlv, hm]

/-! ### The merge preserves the invariants -/

theorem resolvesToPrimary_some {db : DB} {l : Nat} :
    resolvesToPrimary db (some l) ↔
      ∃ q ∈ db.contacts, q.id = l ∧ q.linkPrecedence = .primary :=
  Iff.rfl

theorem nodup_ids_fetchPrimaries (db : DB) (rs : List Nat)
    (hpw : db.contacts.Pairwise fun a b => a.id < b.id) :
    ((fetchPrimaries db rs).map Contact.id).Nodup := by
  have h1 : (db.contacts.filter fun c => c.id ∈ rs).Pairwise (fun a b => a.id < b.id) :=
    List.Pairwise.sublist (List.filter_sublist _) hpw
  have h2 : ((db.contacts.filter fun c => c.id ∈ rs).map Contact.id).Pairwise (· < ·) :=
    List.pairwise_map.2 h1
  have h3 : ((db.contacts.filter fun c => c.id ∈ rs).map Contact.id).Nodup :=
    h2.imp ne_of_lt
  have hperm := (sortByCreatedAt_perm (db.contacts.filter fun c => c.id ∈ rs)).map Contact.id
  exact hperm.nodup_iff.2 h3

theorem goodDB_mergeUnit {db : DB} {others : List Nat} {root : Nat}
    (hdb : GoodDB db)
    (hroot_mem : ∃ q ∈ db.contacts, q.id = root ∧ q.linkPrecedence = .primary)
    (hroot_not : root ∉ others)
    (hothers : ∀ c ∈ db.contacts, c.id ∈ others → c.linkPrecedence = .primary) :
    GoodDB (mergeUnit db others root) := by
  obtain ⟨hpw, hlt, hprim, hsec, hkey⟩ := hdb
  obtain ⟨q, hq, hqid, hqp⟩ := hroot_mem
  have hq_fix : mergeOne others root q = q :=
    mergeOne_untouched (by rw [hqid]; exact hroot_not)
      (fun l hl => by rw [hprim q hq hqp] at hl; cases hl)
  have hq_post : q ∈ (mergeUnit db others root).contacts := by
    rw [mergeUnit_contacts]
    exact List.mem_map.2 ⟨q, hq, hq_fix⟩
  have hsec_not : ∀ c ∈ db.contacts, c.linkPrecedence = .secondary → c.id ∉ others := by
    intro c hc hcs hin
    have h := hothers c hc hin
    rw [hcs] at h
    cases h
  refine ⟨?_, ?_, ?_, ?_, ?_⟩
  · rw [mergeUnit_contacts]
    refine List.pairwise_map.2 (hpw.imp ?_)
    intro a b h
    rw [mergeOne_id, mergeOne_id]
    exact h
  · rw [mergeUnit_contacts]
    intro c' hc'
    obtain ⟨c, hc, rfl⟩ := List.mem_map.1 hc'
    rw [mergeOne_id]
    exact hlt c hc
  · rw [mergeUnit_contacts]
    intro c' hc' hp'
    obtain ⟨c, hc, rfl⟩ := List.mem_map.1 hc'
    by_cases hid : c.id ∈ others
    · rw [mergeOne_demoted hroot_not hid] at hp'
      cases hp'
    · rw [mergeOne_precedence_of_not_mem hid] at hp'
      have hnone := hprim c hc hp'
      rw [mergeOne_untouched hid (fun l hl => by rw [hnone] at hl; cases hl)]
      exact hnone
  · rw [mergeUnit_contacts]
    intro c' hc' hs'
    obtain ⟨c, hc, rfl⟩ := List.mem_map.1 hc'
    by_cases hid : c.id ∈ others
    · rw [mergeOne_demoted hroot_not hid]
      exact ⟨rfl, resolvesToPrimary_some.2 ⟨q, hq_post, hqid, hqp⟩⟩
    · rw [mergeOne_precedence_of_not_mem hid] at hs'
      obtain ⟨his, hres⟩ := hsec c hc hs'
      obtain ⟨l, hl⟩ := Option.isSome_iff_exists.1 his
      rw [hl] at hres
      by_cases hm : l ∈ others
      · rw [mergeOne_relinked hid hl hm]
        exact ⟨rfl, resolvesToPrimary_some.2 ⟨q, hq_post, hqid, hqp⟩⟩
      · rw [mergeOne_untouched hid (fun l' hl' => by
          rw [hl] at hl'
          obtain rfl := Option.some_injective _ hl'
          exact hm)]
        refine ⟨his, ?_⟩
        rw [hl]
        obtain ⟨q0, hq0, hq0id, hq0p⟩ := resolvesToPrimary_some.1 hres
        have hq0_fix : mergeOne others root q0 = q0 :=
          mergeOne_untouched (by rw [hq0id]; exact hm)
            (fun l2 hl2 => by rw [hprim q0 hq0 hq0p] at hl2; cases hl2)
        refine resolvesToPrimary_some.2 ⟨q0, ?_, hq0id, hq0p⟩
        rw [mergeUnit_contacts]
        exact List.mem_map.2 ⟨q0, hq0, hq0_fix⟩
  · have hcollapse : ∀ c ∈ db.contacts,
        rootOf (mergeOne others root c) =
          (rootOf c).map fun x => if x ∈ others then root else x :=
      fun c hc => rootOf_mergeOne hroot_not (hprim c hc) (hsec_not c hc)
    intro c' hc' d' hd' hcdel hddel
    rw [mergeUnit_contacts] at hc' hd'
    obtain ⟨c, hc, rfl⟩ := List.mem_map.1 hc'
    obtain ⟨d, hd, rfl⟩ := List.mem_map.1 hd'
    rw [mergeOne_deletedAt] at hcdel hddel
    constructor
    · intro ht heq
      rw [mergeOne_email] at ht
      rw [mergeOne_email, mergeOne_email] at heq
      rw [hcollapse c hc, hcollapse d hd, (hkey c hc d hd hcdel hddel).1 ht heq]
    · intro ht heq
      rw [mergeOne_phone] at ht
      rw [mergeOne_phone, mergeOne_phone] at heq
      rw [hcollapse c hc, hcollapse d hd, (hkey c hc d hd hcdel hddel).2 ht heq]

/-- The facts the merge branch establishes: the head of the fetched
primaries is an existing primary row whose id is not among the demoted
ids, every row with a demoted id is a primary, and every resolved root is
either the surviving id or a demoted id. -/
theorem merge_ctx {db : DB} {e p : Option String} {o : Contact} {os : List Contact}
    (hdb : GoodDB db)
    (hfp : fetchPrimaries db (rootsOf db e p) = o :: os) :
    o ∈ db.contacts ∧ o.linkPrecedence = .primary ∧ o.linkedId = none ∧
    o.id ∉ os.map Contact.id ∧
    (∀ c ∈ db.contacts, c.id ∈ os.map Contact.id → c.linkPrecedence = .primary) ∧
    (∀ x ∈ rootsOf db e p, x = o.id ∨ x ∈ os.map Contact.id) := by
  have hmemfp : ∀ q0 ∈ o :: os, q0 ∈ db.contacts ∧ q0.id ∈ rootsOf db e p := by
    intro q0 hq0
    rw [← hfp] at hq0
    exact mem_fetchPrimaries.1 hq0
  have ho := hmemfp o (List.mem_cons_self o os)
  have hoprim : o.linkPrecedence = .primary := by
    obtain ⟨q, hq, hqid, hqp⟩ := roots_are_primary hdb ho.2
    rw [← pairwise_id_inj hdb.1 q hq o ho.1 hqid]
    exact hqp
  have honone : o.linkedId = none := hdb.2.2.1 o ho.1 hoprim
  have hnd : ((o :: os).map Contact.id).Nodup := by
    rw [← hfp]
    exact nodup_ids_fetchPrimaries db _ hdb.1
  have honot : o.id ∉ os.map Contact.id := by
    simp only [List.map_cons, List.nodup_cons] at hnd
    exact hnd.1
  have hothers : ∀ c ∈ db.contacts, c.id ∈ os.map Contact.id → c.linkPrecedence = .primary := by
    intro c hc hcin
    obtain ⟨q0, hq0os, hq0id⟩ := List.mem_map.1 hcin
    have hq0 := hmemfp q0 (List.mem_cons_of_mem o hq0os)
    obtain ⟨q1, hq1, hq1id, hq1p⟩ := roots_are_primary hdb hq0.2
    rw [← pairwise_id_inj hdb.1 q0 hq0.1 c hc hq0id,
        ← pairwise_id_inj hdb.1 q1 hq1 q0 hq0.1 hq1id]
    exact hq1p
  have hcover : ∀ x ∈ rootsOf db e p, x = o.id ∨ x ∈ os.map Contact.id := by
    intro x hx
    obtain ⟨q, hq, hqid, hqp⟩ := roots_are_primary hdb hx
    have hqfp : q ∈ fetchPrimaries db (rootsOf db e p) :=
      mem_fetchPrimaries.2 ⟨hq, by rw [hqid]; exact hx⟩
    rw [hfp] at hqfp
    rcases List.mem_cons.1 hqfp with rfl | hqos
    · exact Or.inl hqid.symm
    · exact Or.inr (by rw [← hqid]; exact List.mem_map_of_mem Contact.id hqos)
  exact ⟨ho.1, hoprim, honone, honot, hothers, hcover⟩

theorem rootKey_single {db : DB} {e p : Option String} {r : Nat}
    (hdb : GoodDB db) (h : rootsOf db e p = [r]) : RootKey db r e p := by
  intro d hd hdel
  constructor
  · intro hte heq
    have hdm : d ∈ matchingContacts db e p :=
      mem_matchingContacts.2 ⟨hd, hdel, matchesRequest_email hte heq⟩
    obtain ⟨x, hx⟩ := rootOf_isSome hdb hd
    have hxr : x ∈ rootsOf db e p := mem_primaryIdsOf.2 ⟨d, hdm, hx⟩
    rw [h, List.mem_singleton] at hxr
    rw [hx, hxr]
  · intro htp heq
    have hdm : d ∈ matchingContacts db e p :=
      mem_matchingContacts.2 ⟨hd, hdel, matchesRequest_phone htp heq⟩
    obtain ⟨x, hx⟩ := rootOf_isSome hdb hd
    have hxr : x ∈ rootsOf db e p := mem_primaryIdsOf.2 ⟨d, hdm, hx⟩
    rw [h, List.mem_singleton] at hxr
    rw [hx, hxr]

theorem rootKey_merge {db : DB} {e p : Option String} {o : Contact} {os : List Contact}
    (hdb : GoodDB db)
    (hfp : fetchPrimaries db (rootsOf db e p) = o :: os) :
    RootKey (mergeUnit db (os.map Contact.id) o.id) o.id e p := by
  obtain ⟨homem, hoprim, honone, honot, hothers, hcover⟩ := merge_ctx hdb hfp
  have hsec_not : ∀ c ∈ db.contacts, c.linkPrecedence = .secondary →
      c.id ∉ os.map Contact.id := by
    intro c hc hcs hin
    have h := hothers c hc hin
    rw [hcs] at h
    cases h
  intro d' hd' hdel
  rw [mergeUnit_contacts] at hd'
  obtain ⟨d, hd, rfl⟩ := List.mem_map.1 hd'
  rw [mergeOne_deletedAt] at hdel
  have hcoll := rootOf_mergeOne honot (hdb.2.2.1 d hd) (hsec_not d hd)
  constructor
  · intro hte heq
    rw [mergeOne_email] at heq
    have hdm : d ∈ matchingContacts db e p :=
      mem_matchingContacts.2 ⟨hd, hdel, matchesRequest_email hte heq⟩
    obtain ⟨x, hx⟩ := rootOf_isSome hdb hd
    have hxr : x ∈ rootsOf db e p := mem_primaryIdsOf.2 ⟨d, hdm, hx⟩
    rw [hcoll, hx]
    rcases hcover x hxr with rfl | hxo
    · simp [honot]
    · simp only [Option.map_some', if_pos hxo]
  · intro htp heq
    rw [mergeOne_phone] at heq
    have hdm : d ∈ matchingContacts db e p :=
      mem_matchingContacts.2 ⟨hd, hdel, matchesRequest_phone htp heq⟩
    obtain ⟨x, hx⟩ := rootOf_isSome hdb hd
    have hxr : x ∈ rootsOf db e p := mem_primaryIdsOf.2 ⟨d, hdm, hx⟩
    rw [hcoll, hx]
    rcases hcover x hxr with rfl | hxo
    · simp [honot]
    · simp only [Option.map_some', if_pos hxo]

/-! ### Creation preserves the invariants -/

theorem createContact_contacts (db : DB) (e p : Option String)
    (prec : Precedence) (li : Option Nat) :
    (createContact db e p prec li).1.contacts =
      db.contacts ++ [(createContact db e p prec li).2] := rfl

theorem resolvesToPrimary_createContact {db : DB} {e p : Option String}
    {prec : Precedence} {li : Option Nat} {o : Option Nat}
    (h : resolvesToPrimary db o) :
    resolvesToPrimary (createContact db e p prec li).1 o := by
  cases o with
  | none => trivial
  | some l =>
    obtain ⟨q, hq, h1, h2⟩ := resolvesToPrimary_some.1 h
    exact resolvesToPrimary_some.2 ⟨q, List.mem_append_left _ hq, h1, h2⟩

theorem goodDB_createPrimary {db : DB} {e p : Option String}
    (hdb : GoodDB db)
    (hnm : ∀ d ∈ db.contacts, d.deletedAt = none → matchesRequest e p d = false) :
    GoodDB (createContact db e p .primary none).1 := by
  obtain ⟨hpw, hlt, hprim, hsec, hkey⟩ := hdb
  have hmatchE : ∀ d ∈ db.contacts, d.deletedAt = none →
      truthy e = true → d.email = e → False := by
    intro d hd hdel hte hde
    have hfalse := hnm d hd hdel
    rw [matchesRequest_email (p := p) hte hde] at hfalse
    cases hfalse
  have hmatchP : ∀ d ∈ db.contacts, d.deletedAt = none →
      truthy p = true → d.phoneNumber = p → False := by
    intro d hd hdel htp hdp
    have hfalse := hnm d hd hdel
    rw [matchesRequest_phone (e := e) htp hdp] at hfalse
    cases hfalse
  refine ⟨?_, ?_, ?_, ?_, ?_⟩
  · refine List.pairwise_append.2 ⟨hpw, List.pairwise_singleton _ _, ?_⟩
    intro a ha b hb
    rw [List.mem_singleton] at hb
    subst hb
    exact hlt a ha
  · intro c hc
    rcases List.mem_append.1 hc with hc | hc
    · exact Nat.lt_succ_of_lt (hlt c hc)
    · rw [List.mem_singleton] at hc
      subst hc
      exact Nat.lt_succ_self _
  · intro c hc hcp
    rcases List.mem_append.1 hc with hc | hc
    · exact hprim c hc hcp
    · rw [List.mem_singleton] at hc
      subst hc
      rfl
  · intro c hc hcs
    rcases List.mem_append.1 hc with hc | hc
    · obtain ⟨h1, h2⟩ := hsec c hc hcs
      exact ⟨h1, resolvesToPrimary_createContact h2⟩
    · rw [List.mem_singleton] at hc
      subst hc
      cases hcs
  · intro c hc d hd hcdel hddel
    rcases List.mem_append.1 hc with hc | hc <;> rcases List.mem_append.1 hd with hd | hd
    · exact hkey c hc d hd hcdel hddel
    · rw [List.mem_singleton] at hd
      subst hd
      constructor
      · intro ht heq
        exfalso
        have heq' : c.email = orNull e := heq
        rw [heq'] at ht
        have hte : truthy e = true := by rwa [truthy_orNull] at ht
        refine hmatchE c hc hcdel hte ?_
        rw [heq']
        exact orNull_eq_self hte
      · intro ht heq
        exfalso
        have heq' : c.phoneNumber = orNull p := heq
        rw [heq'] at ht
        have htp : truthy p = true := by rwa [truthy_orNull] at ht
        refine hmatchP c hc hcdel htp ?_
        rw [heq']
        exact orNull_eq_self htp
    · rw [List.mem_singleton] at hc
      subst hc
      constructor
      · intro ht heq
        exfalso
        have ht' : truthy (orNull e) = true := ht
        have heq' : orNull e = d.email := heq
        have hte : truthy e = true := by rwa [truthy_orNull] at ht'
        refine hmatchE d hd hddel hte ?_
        rw [← heq']
        exact orNull_eq_self hte
      · intro ht heq
        exfalso
        have ht' : truthy (orNull p) = true := ht
        have heq' : orNull p = d.phoneNumber := heq
        have htp : truthy p = true := by rwa [truthy_orNull] at ht'
        refine hmatchP d hd hddel htp ?_
        rw [← heq']
        exact orNull_eq_self htp
    · rw [List.mem_singleton] at hc hd
      subst hc
      subst hd
      exact ⟨fun _ _ => rfl, fun _ _ => rfl⟩

theorem goodDB_createSecondary {db : DB} {e p : Option String} {root : Nat}
    (hdb : GoodDB db)
    (hroot : ∃ q ∈ db.contacts, q.id = root ∧ q.linkPrecedence = .primary)
    (hkeyR : RootKey db root e p) :
    GoodDB (createContact db e p .secondary (some root)).1 := by
  obtain ⟨hpw, hlt, hprim, hsec, hkey⟩ := hdb
  obtain ⟨q, hq, hqid, hqp⟩ := hroot
  have hrootOf_new : rootOf (createContact db e p .secondary (some root)).2 = some root := rfl
  refine ⟨?_, ?_, ?_, ?_, ?_⟩
  · refine List.pairwise_append.2 ⟨hpw, List.pairwise_singleton _ _, ?_⟩
    intro a ha b hb
    rw [List.mem_singleton] at hb
    subst hb
    exact hlt a ha
  · intro c hc
    rcases List.mem_append.1 hc with hc | hc
    · exact Nat.lt_succ_of_lt (hlt c hc)
    · rw [List.mem_singleton] at hc
      subst hc
      exact Nat.lt_succ_self _
  · intro c hc hcp
    rcases List.mem_append.1 hc with hc | hc
    · exact hprim c hc hcp
    · rw [List.mem_singleton] at hc
      subst hc
      cases hcp
  · intro c hc hcs
    rcases List.mem_append.1 hc with hc | hc
    · obtain ⟨h1, h2⟩ := hsec c hc hcs
      exact ⟨h1, resolvesToPrimary_createContact h2⟩
    · rw [List.mem_singleton] at hc
      subst hc
      exact ⟨rfl, resolvesToPrimary_some.2 ⟨q, List.mem_append_left _ hq, hqid, hqp⟩⟩
  · intro c hc d hd hcdel hddel
    rcases List.mem_append.1 hc with hc | hc <;> rcases List.mem_append.1 hd with hd | hd
    · exact hkey c hc d hd hcdel hddel
    · rw [List.mem_singleton] at hd
      subst hd
      constructor
      · intro ht heq
        have heq' : c.email = orNull e := heq
        rw [heq'] at ht
        have hte : truthy e = true := by rwa [truthy_orNull] at ht
        have hce : c.email = e := by
          rw [heq']
          exact orNull_eq_self hte
        exact (hkeyR c hc hcdel).1 hte hce
      · intro ht heq
        have heq' : c.phoneNumber = orNull p := heq
        rw [heq'] at ht
        have htp : truthy p = true := by rwa [truthy_orNull] at ht
        have hcp : c.phoneNumber = p := by
          rw [heq']
          exact orNull_eq_self htp
        exact (hkeyR c hc hcdel).2 htp hcp
    · rw [List.mem_singleton] at hc
      subst hc
      constructor
      · intro ht heq
        have ht' : truthy (orNull e) = true := ht
        have heq' : orNull e = d.email := heq
        have hte : truthy e = true := by rwa [truthy_orNull] at ht'
        have hde : d.email = e := by
          rw [← heq']
          exact orNull_eq_self hte
        exact ((hkeyR d hd hddel).1 hte hde).symm
      · intro ht heq
        have ht' : truthy (orNull p) = true := ht
        have heq' : orNull p = d.phoneNumber := heq
        have htp : truthy p = true := by rwa [truthy_orNull] at ht'
        have hdp : d.phoneNumber = p := by
          rw [← heq']
          exact orNull_eq_self htp
        exact ((hkeyR d hd hddel).2 htp hdp).symm
    · rw [List.mem_singleton] at hc hd
      subst hc
      subst hd
      exact ⟨fun _ _ => rfl, fun _ _ => rfl⟩

/-! ### The Extender and the whole request preserve the invariants -/

theorem afterMerge_fst (db : DB) (root : Nat) (e p : Option String) :
    (afterMerge db root e p).1 =
      if isNewInfo (knownEmails (fetchCluster db root)) e
          || isNewInfo (knownPhones (fetchCluster db root)) p then
        (createContact db e p .secondary (some root)).1
      else db := by
  simp only [afterMerge]
  by_cases hb : (isNewInfo (knownEmails (fetchCluster db root)) e
      || isNewInfo (knownPhones (fetchCluster db root)) p) = true
  · rw [if_pos hb, if_pos hb]
    cases hfind : (fetchCluster db root ++
        [(createContact db e p .secondary (some root)).2]).find? (fun c => c.id == root) <;>
      simp [hfind]
  · rw [if_neg hb, if_neg hb]
    cases hfind : (fetchCluster db root).find? (fun c => c.id == root) <;> simp [hfind]

theorem goodDB_afterMerge {db : DB} {root : Nat} {e p : Option String}
    (hdb : GoodDB db)
    (hroot : ∃ q ∈ db.contacts, q.id = root ∧ q.linkPrecedence = .primary)
    (hkeyR : RootKey db root e p) :
    GoodDB (afterMerge db root e p).1 := by
  rw [afterMerge_fst]
  split
  · exact goodDB_createSecondary hdb hroot hkeyR
  · exact hdb

theorem rootKey_afterMerge {db : DB} {root : Nat} {e p : Option String}
    (hkeyR : RootKey db root e p) :
    RootKey (afterMerge db root e p).1 root e p := by
  rw [afterMerge_fst]
  split
  · intro d hd hdel
    rcases List.mem_append.1 hd with hd | hd
    · exact hkeyR d hd hdel
    · rw [List.mem_singleton] at hd
      subst hd
      exact ⟨fun _ _ => rfl, fun _ _ => rfl⟩
  · exact hkeyR

/-! ### Shape of the handler on each branch -/

theorem identify_guard (db : DB) (e p : Option String) (tx : TxOutcome)
    (hg : (!truthy e && !truthy p) = true) :
    identify db e p tx =
      (db, Except.error "At least one of email or phoneNumber is required.") := by
  unfold identify
  rw [if_pos hg]

theorem identify_new (db : DB) (e p : Option String) (tx : TxOutcome)
    (hg : (!truthy e && !truthy p) = false)
    (hroots : rootsOf db e p = []) :
    identify db e p tx = ((createContact db e p .primary none).1, Except.ok
      { primaryContatctId := (createContact db e p .primary none).2.id
        emails := optList (createContact db e p .primary none).2.email
        phoneNumbers := optList (createContact db e p .primary none).2.phoneNumber
        secondaryContactIds := [] }) := by
  simp [identify, hg, hroots]

theorem identify_single (db : DB) (e p : Option String) (tx : TxOutcome) (r : Nat)
    (hg : (!truthy e && !truthy p) = false)
    (hroots : rootsOf db e p = [r]) :
    identify db e p tx = afterMerge db r e p := by
  simp [identify, hg, hroots]

theorem identify_fetchnil (db : DB) (e p : Option String) (tx : TxOutcome)
    (r r2 : Nat) (rest : List Nat)
    (hg : (!truthy e && !truthy p) = false)
    (hroots : rootsOf db e p = r :: r2 :: rest)
    (hfp : fetchPrimaries db (r :: r2 :: rest) = []) :
    identify db e p tx = (db, Except.error "Internal server error") := by
  simp [identify, hg, hroots, hfp]

theorem identify_merge_commit (db : DB) (e p : Option String)
    (r r2 : Nat) (rest : List Nat) (o : Contact) (os : List Contact)
    (hg : (!truthy e && !truthy p) = false)
    (hroots : rootsOf db e p = r :: r2 :: rest)
    (hfp : fetchPrimaries db (r :: r2 :: rest) = o :: os) :
    identify db e p .commit =
      afterMerge (mergeUnit db (os.map Contact.id) o.id) o.id e p := by
  simp [identify, hg, hroots, hfp, runMergeTransaction]

theorem identify_merge_abort (db : DB) (e p : Option String)
    (r r2 : Nat) (rest : List Nat) (o : Contact) (os : List Contact)
    (hg : (!truthy e && !truthy p) = false)
    (hroots : rootsOf db e p = r :: r2 :: rest)
    (hfp : fetchPrimaries db (r :: r2 :: rest) = o :: os) :
    identify db e p .abort = (db, Except.error "Internal server error") := by
  simp [identify, hg, hroots, hfp, runMergeTransaction]

/-! ### Main preservation theorem and reachable states -/

theorem goodDB_identify (db : DB) (e p : Option String) (tx : TxOutcome)
    (hdb : GoodDB db) : GoodDB (identify db e p tx).1 := by
  by_cases hg : (!truthy e && !truthy p) = true
  · rw [identify_guard db e p tx hg]
    exact hdb
  · have hg' : (!truthy e && !truthy p) = false := by
      cases hv : (!truthy e && !truthy p)
      · rfl
      · exact absurd hv hg
    cases hroots : rootsOf db e p with
    | nil =>
      rw [identify_new db e p tx hg' hroots]
      exact goodDB_createPrimary hdb (no_match_of_roots_nil hdb hroots)
    | cons r rest =>
      cases rest with
      | nil =>
        rw [identify_single db e p tx r hg' hroots]
        exact goodDB_afterMerge hdb
          (roots_are_primary hdb (by rw [hroots]; exact List.mem_singleton.2 rfl))
          (rootKey_single hdb hroots)
      | cons r2 rest2 =>
        cases hfp : fetchPrimaries db (r :: r2 :: rest2) with
        | nil =>
          rw [identify_fetchnil db e p tx r r2 rest2 hg' hroots hfp]
          exact hdb
        | cons o os =>
          cases tx with
          | abort =>
            rw [identify_merge_abort db e p r r2 rest2 o os hg' hroots hfp]
            exact hdb
          | commit =>
            rw [identify_merge_commit db e p r r2 rest2 o os hg' hroots hfp]
            have hfp' : fetchPrimaries db (rootsOf db e p) = o :: os := by
              rw [hroots]; exact hfp
            obtain ⟨homem, hoprim, honone, honot, hothers, hcover⟩ := merge_ctx hdb hfp'
            have hmerged : GoodDB (mergeUnit db (os.map Contact.id) o.id) :=
              goodDB_mergeUnit hdb ⟨o, homem, rfl, hoprim⟩ honot hothers
            have ho_fix : mergeOne (os.map Contact.id) o.id o = o :=
              mergeOne_untouched honot (fun l hl => by rw [honone] at hl; cases hl)
            refine goodDB_afterMerge hmerged ⟨o, ?_, rfl, hoprim⟩ (rootKey_merge hdb hfp')
            rw [mergeUnit_contacts]
            exact List.mem_map.2 ⟨o, homem, ho_fix⟩

/-- States reachable from the empty store by a sequence of reconciliation
requests (with arbitrary transaction outcomes). -/
inductive Reachable : DB → Prop where
  | init : Reachable emptyDB
  | step (db : DB) (e p : Option String) (tx : TxOutcome) :
      Reachable db → Reachable (identify db e p tx).1

theorem reachable_goodDB {db : DB} (h : Reachable db) : GoodDB db := by
  induction h with
  | init => decide
  | step db e p tx _ ih => exact goodDB_identify db e p tx ih

/-! ### Facts about the Extender's new-information test -/

theorem truthy_iff {v : Option String} :
    truthy v = true ↔ ∃ s, v = some s ∧ s ≠ "" := by
  cases v <;> simp [truthy]

theorem mem_knownEmails {cluster : List Contact} {s : String} :
    s ∈ knownEmails cluster ↔ (∃ m ∈ cluster, m.email = some s) ∧ s ≠ "" := by
  unfold knownEmails
  rw [List.mem_filter, List.mem_filterMap]
  simp

theorem mem_knownPhones {cluster : List Contact} {s : String} :
    s ∈ knownPhones cluster ↔ (∃ m ∈ cluster, m.phoneNumber = some s) ∧ s ≠ "" := by
  unfold knownPhones
  rw [List.mem_filter, List.mem_filterMap]
  simp

theorem isNewInfo_iff {known : List String} {v : Option String} :
    isNewInfo known v = true ↔ ∃ s, v = some s ∧ s ≠ "" ∧ s ∉ known := by
  cases v with
  | none => simp [isNewInfo]
  | some s => simp [isNewInfo]

theorem isNewInfo_false_of_mem {known : List String} {s : String}
    (h : s ∈ known) : isNewInfo known (some s) = false := by
  simp [isNewInfo, h]

theorem isNewInfo_false_of_falsy {known : List String} {v : Option String}
    (h : truthy v = false) : isNewInfo known v = false := by
  cases v with
  | none => rfl
  | some s =>
    simp only [truthy] at h
    simp [isNewInfo, h]

theorem mem_of_isNewInfo_false {known : List String} {s : String}
    (hne : s ≠ "") (h : isNewInfo known (some s) = false) : s ∈ known := by
  simp [isNewInfo, hne] at h
  exact h

/-! ### What a successful Extender-and-Composer run guarantees -/

theorem afterMerge_ok {db : DB} {root : Nat} {e p : Option String}
    {db2 : DB} {resp : IdentifyResponse}
    (h : afterMerge db root e p = (db2, Except.ok resp)) :
    ∃ cl2 prm, cl2.find? (fun c => c.id == root) = some prm ∧
      resp = composeResponse cl2 root prm ∧ db2 = (afterMerge db root e p).1 ∧
      (cl2 = fetchCluster db root ∨
        cl2 = fetchCluster db root ++ [(createContact db e p .secondary (some root)).2]) := by
  have hdb2 : db2 = (afterMerge db root e p).1 := by rw [h]
  simp only [afterMerge] at h
  by_cases hb : (isNewInfo (knownEmails (fetchCluster db root)) e
      || isNewInfo (knownPhones (fetchCluster db root)) p) = true
  · rw [if_pos hb] at h
    cases hfind : (fetchCluster db root ++
        [(createContact db e p .secondary (some root)).2]).find? (fun c => c.id == root) with
    | none =>
      rw [hfind] at h
      injection h with h1 h2
      cases h2
    | some prm =>
      rw [hfind] at h
      injection h with h1 h2
      injection h2 with h3
      exact ⟨_, prm, hfind, h3.symm, hdb2, Or.inr rfl⟩
  · rw [if_neg hb] at h
    cases hfind : (fetchCluster db root).find? (fun c => c.id == root) with
    | none =>
      rw [hfind] at h
      injection h with h1 h2
      cases h2
    | some prm =>
      rw [hfind] at h
      injection h with h1 h2
      injection h2 with h3
      exact ⟨_, prm, hfind, h3.symm, hdb2, Or.inl rfl⟩

theorem afterMerge_post {db : DB} {root : Nat} {e p : Option String}
    {db2 : DB} {resp : IdentifyResponse}
    (hdb : GoodDB db)
    (hroot : ∃ q ∈ db.contacts, q.id = root ∧ q.linkPrecedence = .primary)
    (h : afterMerge db root e p = (db2, Except.ok resp)) :
    resp.primaryContatctId = root ∧
    (∃ q2 ∈ db2.contacts, q2.id = root ∧ q2.linkPrecedence = .primary ∧
      q2.deletedAt = none) ∧
    (truthy e = true → ∃ d ∈ db2.contacts, d.deletedAt = none ∧ d.email = e) ∧
    (truthy p = true → ∃ d ∈ db2.contacts, d.deletedAt = none ∧ d.phoneNumber = p) := by
  obtain ⟨q, hq, hqid, hqp⟩ := hroot
  obtain ⟨cl2, prm, hfind, hresp, hdb2, hcl2⟩ := afterMerge_ok h
  have hsub : ∀ x ∈ db.contacts, x ∈ db2.contacts := by
    rw [hdb2, afterMerge_fst]
    split
    · intro x hx
      exact List.mem_append_left _ hx
    · intro x hx
      exact hx
  have hprm_id : prm.id = root := by
    have hb := List.find?_some hfind
    exact beq_iff_eq.1 hb
  have hprm_cluster : prm ∈ fetchCluster db root := by
    rcases hcl2 with rfl | rfl
    · exact List.mem_of_find?_eq_some hfind
    · rcases List.mem_append.1 (List.mem_of_find?_eq_some hfind) with hm | hm
      · exact hm
      · rw [List.mem_singleton] at hm
        exfalso
        have hidnew : prm.id = db.nextId := by rw [hm]; rfl
        have : root < db.nextId := by
          rw [← hqid]
          exact hdb.2.1 q hq
        rw [← hprm_id, hidnew] at this
        exact lt_irrefl _ this
  obtain ⟨hprm_db, hprm_del, _⟩ := mem_fetchCluster.1 hprm_cluster
  have hprm_eq_q : prm = q := by
    refine pairwise_id_inj hdb.1 prm hprm_db q hq ?_
    rw [hprm_id, hqid]
  refine ⟨by rw [hresp]; rfl, ⟨prm, hsub prm hprm_db, hprm_id, ?_, hprm_del⟩, ?_, ?_⟩
  · rw [hprm_eq_q]
    exact hqp
  · intro hte
    cases heNew : isNewInfo (knownEmails (fetchCluster db root)) e with
    | true =>
      obtain ⟨s, hes, hsne⟩ := truthy_iff.1 hte
      refine ⟨(createContact db e p .secondary (some root)).2, ?_, rfl, orNull_eq_self hte⟩
      rw [hdb2, afterMerge_fst, if_pos (by rw [heNew]; rfl)]
      exact List.mem_append_right _ (List.mem_singleton.2 rfl)
    | false =>
      obtain ⟨s, hes, hsne⟩ := truthy_iff.1 hte
      rw [hes] at heNew
      have hmem := mem_of_isNewInfo_false hsne heNew
      obtain ⟨⟨m, hm, hms⟩, _⟩ := mem_knownEmails.1 hmem
      obtain ⟨hmdb, hmdel, _⟩ := mem_fetchCluster.1 hm
      exact ⟨m, hsub m hmdb, hmdel, by rw [hms, hes]⟩
  · intro htp
    cases hpNew : isNewInfo (knownPhones (fetchCluster db root)) p with
    | true =>
      refine ⟨(createContact db e p .secondary (some root)).2, ?_, rfl, orNull_eq_self htp⟩
      rw [hdb2, afterMerge_fst, if_pos (by rw [hpNew]; simp)]
      exact List.mem_append_right _ (List.mem_singleton.2 rfl)
    | false =>
      obtain ⟨s, hps, hsne⟩ := truthy_iff.1 htp
      rw [hps] at hpNew
      have hmem := mem_of_isNewInfo_false hsne hpNew
      obtain ⟨⟨m, hm, hms⟩, _⟩ := mem_knownPhones.1 hmem
      obtain ⟨hmdb, hmdel, _⟩ := mem_fetchCluster.1 hm
      exact ⟨m, hsub m hmdb, hmdel, by rw [hms, hps]⟩

/-! ### A request whose keys already resolve to a single root is a no-op -/

theorem roots_single_of {db : DB} {r : Nat} {e p : Option String}
    (hkey : RootKey db r e p)
    (hwitE : truthy e = true → ∃ d ∈ db.contacts, d.deletedAt = none ∧ d.email = e)
    (hwitP : truthy p = true → ∃ d ∈ db.contacts, d.deletedAt = none ∧ d.phoneNumber = p)
    (hguard : truthy e = true ∨ truthy p = true) :
    rootsOf db e p = [r] := by
  have hall : ∀ x ∈ rootsOf db e p, x = r := by
    intro x hx
    obtain ⟨c, hc, hroot⟩ := mem_primaryIdsOf.1 hx
    obtain ⟨hcdb, hcdel, hm⟩ := mem_matchingContacts.1 hc
    have hcr : rootOf c = some r := by
      rcases matchesRequest_cases hm with ⟨hte, hce⟩ | ⟨htp, hcp⟩
      · exact (hkey c hcdb hcdel).1 hte hce
      · exact (hkey c hcdb hcdel).2 htp hcp
    rw [hcr] at hroot
    exact (Option.some_injective _ hroot).symm
  have hne : r ∈ rootsOf db e p := by
    rcases hguard with hte | htp
    · obtain ⟨d, hd, hdel, hde⟩ := hwitE hte
      have hdm : d ∈ matchingContacts db e p :=
        mem_matchingContacts.2 ⟨hd, hdel, matchesRequest_email hte hde⟩
      exact mem_primaryIdsOf.2 ⟨d, hdm, (hkey d hd hdel).1 hte hde⟩
    · obtain ⟨d, hd, hdel, hdp⟩ := hwitP htp
      have hdm : d ∈ matchingContacts db e p :=
        mem_matchingContacts.2 ⟨hd, hdel, matchesRequest_phone htp hdp⟩
      exact mem_primaryIdsOf.2 ⟨d, hdm, (hkey d hd hdel).2 htp hdp⟩
  have hnd : (rootsOf db e p).Nodup := nodup_primaryIdsOf _
  cases hl : rootsOf db e p with
  | nil =>
    rw [hl] at hne
    cases hne
  | cons a t =>
    have ha : a = r := hall a (by rw [hl]; exact List.mem_cons_self a t)
    subst ha
    have ht : t = [] := by
      rw [List.eq_nil_iff_forall_not_mem]
      intro y hy
      have hyr : y = a := hall y (by rw [hl]; exact List.mem_cons_of_mem _ hy)
      subst hyr
      rw [hl] at hnd
      exact (List.nodup_cons.1 hnd).1 hy
    rw [ht]

theorem identify_noop {db : DB} {r : Nat} {e p : Option String} (tx : TxOutcome)
    (hkey : RootKey db r e p)
    (hroots : rootsOf db e p = [r])
    (hprim : ∃ q ∈ db.contacts, q.id = r ∧ q.linkPrecedence = .primary ∧
      q.deletedAt = none)
    (hwitE : truthy e = true → ∃ d ∈ db.contacts, d.deletedAt = none ∧ d.email = e)
    (hwitP : truthy p = true → ∃ d ∈ db.contacts, d.deletedAt = none ∧ d.phoneNumber = p)
    (hguard : truthy e = true ∨ truthy p = true) :
    (identify db e p tx).1 = db ∧
    ∃ resp2, (identify db e p tx).2 = Except.ok resp2 ∧
      resp2.primaryContatctId = r := by
  have hg : (!truthy e && !truthy p) = false := by
    rcases hguard with h | h <;> simp [h]
  rw [identify_single db e p tx r hg hroots]
  have hclmem : ∀ d ∈ db.contacts, d.deletedAt = none → rootOf d = some r →
      d ∈ fetchCluster db r := by
    intro d hd hdel hroot_d
    rw [mem_fetchCluster]
    refine ⟨hd, hdel, ?_⟩
    cases hdp : d.linkPrecedence with
    | primary =>
      left
      simp only [rootOf, hdp, Option.some.injEq] at hroot_d
      exact hroot_d
    | secondary =>
      right
      simp only [rootOf, hdp] at hroot_d
      exact hroot_d
  have heNew : isNewInfo (knownEmails (fetchCluster db r)) e = false := by
    cases hte : truthy e with
    | false => exact isNewInfo_false_of_falsy hte
    | true =>
      obtain ⟨d, hd, hdel, hde⟩ := hwitE hte
      obtain ⟨s, hes, hsne⟩ := truthy_iff.1 hte
      have hroot_d : rootOf d = some r := (hkey d hd hdel).1 hte hde
      have hmem : s ∈ knownEmails (fetchCluster db r) :=
        mem_knownEmails.2 ⟨⟨d, hclmem d hd hdel hroot_d, by rw [hde, hes]⟩, hsne⟩
      rw [hes]
      exact isNewInfo_false_of_mem hmem
  have hpNew : isNewInfo (knownPhones (fetchCluster db r)) p = false := by
    cases htp : truthy p with
    | false => exact isNewInfo_false_of_falsy htp
    | true =>
      obtain ⟨d, hd, hdel, hdp⟩ := hwitP htp
      obtain ⟨s, hps, hsne⟩ := truthy_iff.1 htp
      have hroot_d : rootOf d = some r := (hkey d hd hdel).2 htp hdp
      have hmem : s ∈ knownPhones (fetchCluster db r) :=
        mem_knownPhones.2 ⟨⟨d, hclmem d hd hdel hroot_d, by rw [hdp, hps]⟩, hsne⟩
      rw [hps]
      exact isNewInfo_false_of_mem hmem
  obtain ⟨q, hq, hqid, hqp, hqdel⟩ := hprim
  have hqc : q ∈ fetchCluster db r := mem_fetchCluster.2 ⟨hq, hqdel, Or.inl hqid⟩
  have hfindsome : ((fetchCluster db r).find? (fun c => c.id == r)).isSome = true :=
    List.find?_isSome.2 ⟨q, hqc, by simp [hqid]⟩
  obtain ⟨prm, hprmfind⟩ := Option.isSome_iff_exists.1 hfindsome
  simp only [afterMerge, heNew, hpNew, Bool.or_self, Bool.false_eq_true, if_false, hprmfind]
  constructor
  · trivial
  · exact ⟨composeResponse (fetchCluster db r) r prm, rfl, rfl⟩

/-! ### Characterising the Composer -/

/-- A truthy optional value (`null` and `""` dropped). -/
def truthyVal : Option String → Option String
  | none => none
  | some s => if s == "" then none else some s

/-- Append a value unless it is already present. -/
def insertUnique (xs : List String) (s : String) : List String :=
  if xs.contains s then xs else xs ++ [s]

/-- First-seen-order deduplication. -/
def dedupKeepFirst (l : List String) : List String := l.foldl insertUnique []

theorem pushIfNew_eq (xs : List String) (v : Option String) :
    pushIfNew xs v =
      match truthyVal v with
      | some s => insertUnique xs s
      | none => xs := by
  cases v with
  | none => rfl
  | some s =>
    by_cases h : (s == "") = true
    · simp [pushIfNew, truthyVal, h]
    · simp [pushIfNew, truthyVal, h, insertUnique]

theorem foldl_pushIfNew (l : List (Option String)) (acc : List String) :
    l.foldl pushIfNew acc = (l.filterMap truthyVal).foldl insertUnique acc := by
  induction l generalizing acc with
  | nil => rfl
  | cons v vs ih =>
    simp only [List.foldl_cons, pushIfNew_eq, List.filterMap_cons]
    cases hv : truthyVal v with
    | none =>
      simp only [hv]
      exact ih acc
    | some s =>
      simp only [hv, List.foldl_cons]
      exact ih (insertUnique acc s)

theorem composeLoop_eq (root : Nat) (cs : List Contact)
    (es ps : List String) (ids : List Nat) :
    composeLoop root cs (es, ps, ids) =
      ( ((cs.filter fun c => !(c.id == root)).map Contact.email).foldl pushIfNew es
      , ((cs.filter fun c => !(c.id == root)).map Contact.phoneNumber).foldl pushIfNew ps
      , ids ++ (cs.filter fun c => !(c.id == root)).map Contact.id ) := by
  induction cs generalizing es ps ids with
  | nil => simp [composeLoop]
  | cons c cs ih =>
    simp only [composeLoop]
    by_cases h : (c.id == root) = true
    · rw [if_pos h, ih]
      have hpred : (!(c.id == root)) = false := by rw [h]; rfl
      simp [List.filter_cons, hpred]
    · rw [if_neg h, ih]
      have hpred : (!(c.id == root)) = true := by
        cases hv : (c.id == root)
        · rfl
        · exact absurd hv h
      simp [List.filter_cons, hpred]

theorem pushIfNew_nil (v : Option String) :
    pushIfNew [] v = dedupKeepFirst (optList v) := by
  cases v with
  | none => rfl
  | some s =>
    by_cases h : (s == "") = true
    · simp [pushIfNew, optList, dedupKeepFirst, h]
    · simp [pushIfNew, optList, dedupKeepFirst, h, insertUnique, List.foldl]

theorem dedupKeepFirst_append (l1 l2 : List String) :
    dedupKeepFirst (l1 ++ l2) = l2.foldl insertUnique (dedupKeepFirst l1) := by
  simp [dedupKeepFirst, List.foldl_append]

theorem foldl_insertUnique_extends (l : List String) (acc : List String) :
    ∃ t, l.foldl insertUnique acc = acc ++ t := by
  induction l generalizing acc with
  | nil => exact ⟨[], by simp⟩
  | cons s l ih =>
    rw [List.foldl_cons]
    by_cases h : acc.contains s
    · rw [show insertUnique acc s = acc from if_pos h]
      exact ih acc
    · rw [show insertUnique acc s = acc ++ [s] from if_neg h]
      obtain ⟨t, ht⟩ := ih (acc ++ [s])
      exact ⟨[s] ++ t, by rw [ht, List.append_assoc]⟩

theorem composeResponse_eq (cluster : List Contact) (root : Nat) (primary : Contact) :
    composeResponse cluster root primary =
      { primaryContatctId := root
        emails := dedupKeepFirst (optList primary.email ++
          ((cluster.filter fun c => !(c.id == root)).map Contact.email).filterMap truthyVal)
        phoneNumbers := dedupKeepFirst (optList primary.phoneNumber ++
          ((cluster.filter fun c => !(c.id == root)).map Contact.phoneNumber).filterMap truthyVal)
        secondaryContactIds := (cluster.filter fun c => !(c.id == root)).map Contact.id } := by
  unfold composeResponse
  rw [composeLoop_eq]
  simp only [foldl_pushIfNew, List.nil_append]
  rw [pushIfNew_nil, pushIfNew_nil, dedupKeepFirst_append, dedupKeepFirst_append]

/-! ## Example stores used by witnesses and counterexamples -/

/-- Two primaries bridged by one request: P1 owns the email, P2 the phone. -/
def dbTwoPrimaries : DB :=
  ⟨[⟨1, some "a", none, .primary, none, 0, none⟩,
    ⟨2, none, some "p", .primary, none, 1, none⟩], 3, 2⟩

/-- A single primary owning one email. -/
def dbOnePrimary : DB := ⟨[⟨1, some "a", none, .primary, none, 0, none⟩], 2, 1⟩

/-- Two primaries with the same `createdAt`, distinguished only by id. -/
def dbTie : DB :=
  ⟨[⟨1, some "a", none, .primary, none, 5, none⟩,
    ⟨2, none, some "p", .primary, none, 5, none⟩], 3, 6⟩

/-! ## Claims -/

/-- C1: the Merger's two writes (demote the non-surviving primaries, then
re-point their secondaries) form one atomic unit of work: every outcome of
the `prisma.$transaction` is either both writes applied or the store
unchanged — the demote-only intermediate state is never an outcome — and
when the unit of work aborts, the whole request fails with the internal
error and no partial state is persisted. -/
theorem merger_transaction_atomic :
    (∀ (db : DB) (others : List Nat) (root : Nat) (tx : TxOutcome),
      runMergeTransaction db others root tx = (mergeUnit db others root, true) ∨
      runMergeTransaction db others root tx = (db, false)) ∧
    (∀ (db : DB) (e p : Option String) (r r2 : Nat) (rest : List Nat)
        (o : Contact) (os : List Contact),
      (!truthy e && !truthy p) = false →
      rootsOf db e p = r :: r2 :: rest →
      fetchPrimaries db (r :: r2 :: rest) = o :: os →
      identify db e p .abort = (db, Except.error "Internal server error")) := by
  constructor
  · intro db others root tx
    cases tx
    · exact Or.inl rfl
    · exact Or.inr rfl
  · intro db e p r r2 rest o os hg hroots hfp
    exact identify_merge_abort db e p r r2 rest o os hg hroots hfp

/-- Witness for C1 at the two-primary store. -/
theorem merger_transaction_atomic_witness :
    (runMergeTransaction dbTwoPrimaries [2] 1 .abort =
        (mergeUnit dbTwoPrimaries [2] 1, true) ∨
      runMergeTransaction dbTwoPrimaries [2] 1 .abort = (dbTwoPrimaries, false)) ∧
    identify dbTwoPrimaries (some "a") (some "p") .abort =
      (dbTwoPrimaries, Except.error "Internal server error") :=
  ⟨merger_transaction_atomic.1 dbTwoPrimaries [2] 1 .abort,
   merger_transaction_atomic.2 dbTwoPrimaries (some "a") (some "p") 1 2 []
     ⟨1, some "a", none, .primary, none, 0, none⟩
     [⟨2, none, some "p", .primary, none, 1, none⟩]
     (by decide) (by decide) (by decide)⟩

/-- C2: after any reconciliation request on a well-formed store, every
non-deleted contact whose `linkedId` is present points at a contact whose
`linkPrecedence` is `primary`; no secondary links to another secondary. -/
theorem links_resolve_to_primary (db : DB) (e p : Option String) (tx : TxOutcome)
    (hdb : GoodDB db) :
    ∀ c ∈ (identify db e p tx).1.contacts, c.deletedAt = none →
      ∀ l, c.linkedId = some l →
        ∃ q ∈ (identify db e p tx).1.contacts,
          q.id = l ∧ q.linkPrecedence = .primary := by
  have hpost := goodDB_identify db e p tx hdb
  intro c hc _ l hl
  cases hp : c.linkPrecedence with
  | primary =>
    rw [hpost.2.2.1 c hc hp] at hl
    cases hl
  | secondary =>
    obtain ⟨_, hres⟩ := hpost.2.2.2.1 c hc hp
    rw [hl] at hres
    exact resolvesToPrimary_some.1 hres

/-- Witness for C2: after the merge request on the two-primary store, the
demoted contact's `linkedId` points at a primary row. -/
theorem links_resolve_to_primary_witness :
    ∃ q ∈ (identify dbTwoPrimaries (some "a") (some "p") .commit).1.contacts,
      q.id = 1 ∧ q.linkPrecedence = .primary :=
  links_resolve_to_primary dbTwoPrimaries (some "a") (some "p") .commit (by decide)
    ⟨2, none, some "p", .secondary, some 1, 1, none⟩ (by decide) rfl 1 rfl

/-- The cluster of a primary id: the row itself plus every row linked to it. -/
def clusterOf (db : DB) (pid : Nat) : List Contact :=
  db.contacts.filter fun c => c.id == pid || c.linkedId == some pid

/-- C3: in every store reachable from the empty store by reconciliation
requests, each cluster contains exactly one primary — the cluster of a
primary `pr` contains `pr`, contains no other primary, and every other
member is a secondary linked to `pr`. -/
theorem one_primary_per_cluster {db : DB} (h : Reachable db) :
    ∀ pr ∈ db.contacts, pr.linkPrecedence = .primary →
      pr ∈ clusterOf db pr.id ∧
      (∀ c ∈ clusterOf db pr.id, c.linkPrecedence = .primary → c = pr) ∧
      (∀ c ∈ clusterOf db pr.id, c ≠ pr →
        c.linkPrecedence = .secondary ∧ c.linkedId = some pr.id) := by
  have hdb := reachable_goodDB h
  intro pr hpr hprim
  have hmemcluster : ∀ c, c ∈ clusterOf db pr.id ↔
      c ∈ db.contacts ∧ (c.id = pr.id ∨ c.linkedId = some pr.id) := by
    intro c
    unfold clusterOf
    rw [List.mem_filter]
    simp
  refine ⟨?_, ?_, ?_⟩
  · exact (hmemcluster pr).2 ⟨hpr, Or.inl rfl⟩
  · intro c hc hcp
    obtain ⟨hcdb, hcond⟩ := (hmemcluster c).1 hc
    rcases hcond with hid | hlink
    · exact pairwise_id_inj hdb.1 c hcdb pr hpr hid
    · rw [hdb.2.2.1 c hcdb hcp] at hlink
      cases hlink
  · intro c hc hne
    obtain ⟨hcdb, hcond⟩ := (hmemcluster c).1 hc
    have hcsec : c.linkPrecedence = .secondary := by
      cases hcs : c.linkPrecedence with
      | primary =>
        exfalso
        rcases hcond with hid | hlink
        · exact hne (pairwise_id_inj hdb.1 c hcdb pr hpr hid)
        · rw [hdb.2.2.1 c hcdb hcs] at hlink
          cases hlink
      | secondary => rfl
    refine ⟨hcsec, ?_⟩
    rcases hcond with hid | hlink
    · exact absurd (pairwise_id_inj hdb.1 c hcdb pr hpr hid) hne
    · exact hlink

/-- Witness for C3 at the store reached by one request on the empty store:
the created primary's cluster contains it. -/
theorem one_primary_per_cluster_witness :
    (⟨1, some "a", none, .primary, none, 0, none⟩ : Contact) ∈
      clusterOf (identify emptyDB (some "a") none .commit).1 1 :=
  (one_primary_per_cluster
    (Reachable.step emptyDB (some "a") none .commit Reachable.init)
    ⟨1, some "a", none, .primary, none, 0, none⟩ (by decide) rfl).1

/-- Counterexample to C4 as stated: the program breaks `createdAt` ties by
no id order.  For the two primaries of `dbTie`, both with `createdAt = 5`,
the id-2-first arrangement is an equally admissible result of the
primaries fetch (the query orders by `createdAt` only, with no secondary
sort key), its head is the id-2 row rather than the ascending-id winner
id 1, and running the merge writes with that survivor demotes the id-1
primary. -/
theorem merger_tie_order_ctrex :
    IsSortedFetch dbTie [1, 2]
      [⟨2, none, some "p", .primary, none, 5, none⟩,
       ⟨1, some "a", none, .primary, none, 5, none⟩] ∧
    ([(⟨2, none, some "p", .primary, none, 5, none⟩ : Contact),
      ⟨1, some "a", none, .primary, none, 5, none⟩].head?.map Contact.id = some 2) ∧
    (⟨1, some "a", none, .primary, none, 5, none⟩ : Contact).createdAt =
      (⟨2, none, some "p", .primary, none, 5, none⟩ : Contact).createdAt ∧
    (1 : Nat) < 2 ∧
    (mergeUnit dbTie [1] 2).contacts.get? 0 =
      some ⟨1, some "a", none, .secondary, some 2, 5, none⟩ := by
  refine ⟨⟨?_, by decide⟩, rfl, rfl, by decide, rfl⟩
  exact List.Perm.swap _ _ _

/-- C4 amended: for any admissible result order of the primaries fetch
(any `createdAt`-ascending arrangement of the rows carrying the resolved
ids), the surviving head is weakly earliest by `createdAt`; when the
fetched primaries carry pairwise distinct `createdAt` values it is
strictly the earliest — for two primaries with t1 < t2 the t1 one always
survives; the surviving row is untouched by the merge and every other
fetched primary is demoted to a secondary linked to it.  At equal
`createdAt` values the survivor is whichever row the store returns first:
no id tie-break is applied. -/
theorem merger_keeps_oldest
    (db : DB) (rs : List Nat) (o : Contact) (os : List Contact)
    (hids : db.contacts.Pairwise fun a b => a.id < b.id)
    (hfp : IsSortedFetch db rs (o :: os))
    (hol : o.linkedId = none) :
    (∀ q ∈ os, o.createdAt ≤ q.createdAt) ∧
    ((o :: os).Pairwise (fun a b => a.createdAt ≠ b.createdAt) →
      ∀ q ∈ os, o.createdAt < q.createdAt) ∧
    o ∈ (mergeUnit db (os.map Contact.id) o.id).contacts ∧
    (∀ c ∈ (mergeUnit db (os.map Contact.id) o.id).contacts,
      c.id ∈ os.map Contact.id →
        c.linkPrecedence = .secondary ∧ c.linkedId = some o.id) := by
  obtain ⟨hperm, hsort⟩ := hfp
  rw [List.pairwise_cons] at hsort
  have hle : ∀ q ∈ os, o.createdAt ≤ q.createdAt := hsort.1
  have hnd : ((o :: os).map Contact.id).Nodup := by
    have h1 : (db.contacts.filter fun c => c.id ∈ rs).Pairwise
        (fun a b => a.id < b.id) :=
      List.Pairwise.sublist (List.filter_sublist _) hids
    have h2 : ((db.contacts.filter fun c => c.id ∈ rs).map Contact.id).Nodup :=
      (List.pairwise_map.2 h1).imp ne_of_lt
    exact ((hperm.map Contact.id).nodup_iff).2 h2
  have honot : o.id ∉ os.map Contact.id := by
    simp only [List.map_cons, List.nodup_cons] at hnd
    exact hnd.1
  have ho_mem : o ∈ db.contacts := by
    have hm : o ∈ db.contacts.filter fun c => c.id ∈ rs :=
      hperm.mem_iff.1 (List.mem_cons_self o os)
    exact (List.mem_filter.1 hm).1
  refine ⟨hle, ?_, ?_, ?_⟩
  · intro hdist q hq
    rw [List.pairwise_cons] at hdist
    exact lt_of_le_of_ne (hle q hq) (hdist.1 q hq)
  · rw [mergeUnit_contacts]
    exact List.mem_map.2 ⟨o, ho_mem,
      mergeOne_untouched honot (fun l hl => by rw [hol] at hl; cases hl)⟩
  · intro c hc hcin
    rw [mergeUnit_contacts] at hc
    obtain ⟨c0, hc0, rfl⟩ := List.mem_map.1 hc
    rw [mergeOne_id] at hcin
    rw [mergeOne_demoted honot hcin]
    exact ⟨rfl, rfl⟩

/-- Witness for the amended C4: with distinct `createdAt` values (0 < 1)
the strictly older primary survives untouched and the newer one is demoted
under it. -/
theorem merger_keeps_oldest_witness :
    (⟨1, some "a", none, .primary, none, 0, none⟩ : Contact).createdAt <
      (⟨2, none, some "p", .primary, none, 1, none⟩ : Contact).createdAt ∧
    (⟨1, some "a", none, .primary, none, 0, none⟩ : Contact) ∈
      (mergeUnit dbTwoPrimaries [2] 1).contacts ∧
    ((⟨2, none, some "p", .secondary, some 1, 1, none⟩ : Contact).linkPrecedence =
        .secondary ∧
      (⟨2, none, some "p", .secondary, some 1, 1, none⟩ : Contact).linkedId = some 1) :=
  ⟨(merger_keeps_oldest dbTwoPrimaries [1, 2]
      ⟨1, some "a", none, .primary, none, 0, none⟩
      [⟨2, none, some "p", .primary, none, 1, none⟩]
      (by decide) ⟨List.Perm.refl _, by decide⟩ rfl).2.1 (by decide)
      ⟨2, none, some "p", .primary, none, 1, none⟩ (by decide),
   (merger_keeps_oldest dbTwoPrimaries [1, 2]
      ⟨1, some "a", none, .primary, none, 0, none⟩
      [⟨2, none, some "p", .primary, none, 1, none⟩]
      (by decide) ⟨List.Perm.refl _, by decide⟩ rfl).2.2.1,
   (merger_keeps_oldest dbTwoPrimaries [1, 2]
      ⟨1, some "a", none, .primary, none, 0, none⟩
      [⟨2, none, some "p", .primary, none, 1, none⟩]
      (by decide) ⟨List.Perm.refl _, by decide⟩ rfl).2.2.2
      ⟨2, none, some "p", .secondary, some 1, 1, none⟩ (by decide) (by decide)⟩

/-- C6: the Extender creates exactly one new row — secondary, linked to
the surviving primary, carrying the supplied email and phone (empty
strings stored as null) — precisely when the supplied email is absent from
the cluster's known emails or the supplied phone is absent from its known
phones; otherwise the store is unchanged. -/
theorem extender_creates_iff (db : DB) (root : Nat) (e p : Option String) :
    (((∃ s, e = some s ∧ s ≠ "" ∧ s ∉ knownEmails (fetchCluster db root)) ∨
      (∃ s, p = some s ∧ s ≠ "" ∧ s ∉ knownPhones (fetchCluster db root))) →
      (afterMerge db root e p).1.contacts =
        db.contacts ++ [(createContact db e p .secondary (some root)).2] ∧
      (createContact db e p .secondary (some root)).2.linkPrecedence = .secondary ∧
      (createContact db e p .secondary (some root)).2.linkedId = some root ∧
      (createContact db e p .secondary (some root)).2.email = orNull e ∧
      (createContact db e p .secondary (some root)).2.phoneNumber = orNull p) ∧
    (¬((∃ s, e = some s ∧ s ≠ "" ∧ s ∉ knownEmails (fetchCluster db root)) ∨
       (∃ s, p = some s ∧ s ≠ "" ∧ s ∉ knownPhones (fetchCluster db root))) →
      (afterMerge db root e p).1 = db) := by
  have hiff : (isNewInfo (knownEmails (fetchCluster db root)) e
      || isNewInfo (knownPhones (fetchCluster db root)) p) = true ↔
      ((∃ s, e = some s ∧ s ≠ "" ∧ s ∉ knownEmails (fetchCluster db root)) ∨
       (∃ s, p = some s ∧ s ≠ "" ∧ s ∉ knownPhones (fetchCluster db root))) := by
    rw [Bool.or_eq_true, isNewInfo_iff, isNewInfo_iff]
  constructor
  · intro hC
    rw [afterMerge_fst, if_pos (hiff.2 hC)]
    exact ⟨rfl, rfl, rfl, rfl, rfl⟩
  · intro hC
    rw [afterMerge_fst, if_neg (fun h => hC (hiff.1 h))]

/-- Witness for C6: a new email extends the one-primary cluster; a known
email extends nothing. -/
theorem extender_creates_iff_witness :
    ((afterMerge dbOnePrimary 1 (some "b") none).1.contacts =
        dbOnePrimary.contacts ++
          [(createContact dbOnePrimary (some "b") none .secondary (some 1)).2] ∧
      (createContact dbOnePrimary (some "b") none .secondary (some 1)).2.linkPrecedence =
        .secondary ∧
      (createContact dbOnePrimary (some "b") none .secondary (some 1)).2.linkedId =
        some 1 ∧
      (createContact dbOnePrimary (some "b") none .secondary (some 1)).2.email =
        orNull (some "b") ∧
      (createContact dbOnePrimary (some "b") none .secondary (some 1)).2.phoneNumber =
        orNull none) ∧
    (afterMerge dbOnePrimary 1 (some "a") none).1 = dbOnePrimary :=
  ⟨(extender_creates_iff dbOnePrimary 1 (some "b") none).1
      (Or.inl ⟨"b", rfl, by decide, by decide⟩),
   (extender_creates_iff dbOnePrimary 1 (some "a") none).2
      (by
        rintro (⟨s, hs, hne, hmem⟩ | ⟨s, hs, _, _⟩)
        · obtain rfl := Option.some_injective _ hs.symm
          exact hmem (by decide)
        · cases hs)⟩

/-- C7: the Composer reports the primary id under the field named
`primaryContatctId`, its email/phone lists are the first-seen-order
deduplication of the primary's own truthy email/phone followed by the
remaining cluster members' truthy values in cluster order, the primary's
email/phone (when present and non-empty) sits at index 0, and
`secondaryContactIds` lists every non-primary member's id. -/
theorem composer_correct (cluster : List Contact) (root : Nat) (primary : Contact) :
    composeResponse cluster root primary =
      { primaryContatctId := root
        emails := dedupKeepFirst (optList primary.email ++
          ((cluster.filter fun c => !(c.id == root)).map Contact.email).filterMap truthyVal)
        phoneNumbers := dedupKeepFirst (optList primary.phoneNumber ++
          ((cluster.filter fun c => !(c.id == root)).map Contact.phoneNumber).filterMap
            truthyVal)
        secondaryContactIds := (cluster.filter fun c => !(c.id == root)).map Contact.id } ∧
    (∀ s, primary.email = some s → s ≠ "" →
      (composeResponse cluster root primary).emails.head? = some s) ∧
    (∀ s, primary.phoneNumber = some s → s ≠ "" →
      (composeResponse cluster root primary).phoneNumbers.head? = some s) := by
  refine ⟨composeResponse_eq cluster root primary, ?_, ?_⟩
  · intro s hs hne
    rw [composeResponse_eq]
    show (dedupKeepFirst (optList primary.email ++
      ((cluster.filter fun c => !(c.id == root)).map Contact.email).filterMap
        truthyVal)).head? = some s
    have hopt : optList primary.email = [s] := by
      rw [hs]
      simp [optList, hne]
    rw [hopt, dedupKeepFirst_append]
    rw [show dedupKeepFirst [s] = [s] from rfl]
    obtain ⟨t, ht⟩ := foldl_insertUnique_extends
      (((cluster.filter fun c => !(c.id == root)).map Contact.email).filterMap truthyVal) [s]
    rw [ht]
    rfl
  · intro s hs hne
    rw [composeResponse_eq]
    show (dedupKeepFirst (optList primary.phoneNumber ++
      ((cluster.filter fun c => !(c.id == root)).map Contact.phoneNumber).filterMap
        truthyVal)).head? = some s
    have hopt : optList primary.phoneNumber = [s] := by
      rw [hs]
      simp [optList, hne]
    rw [hopt, dedupKeepFirst_append]
    rw [show dedupKeepFirst [s] = [s] from rfl]
    obtain ⟨t, ht⟩ := foldl_insertUnique_extends
      (((cluster.filter fun c => !(c.id == root)).map Contact.phoneNumber).filterMap
        truthyVal) [s]
    rw [ht]
    rfl

/-- Witness for C7 on a concrete two-member cluster with duplicate email. -/
theorem composer_correct_witness :
    (composeResponse
        [⟨1, some "a", some "x", .primary, none, 0, none⟩,
         ⟨2, some "a", some "y", .secondary, some 1, 1, none⟩] 1
        ⟨1, some "a", some "x", .primary, none, 0, none⟩).emails.head? = some "a" ∧
    (composeResponse
        [⟨1, some "a", some "x", .primary, none, 0, none⟩,
         ⟨2, some "a", some "y", .secondary, some 1, 1, none⟩] 1
        ⟨1, some "a", some "x", .primary, none, 0, none⟩).phoneNumbers.head? = some "x" :=
  ⟨(composer_correct
      [⟨1, some "a", some "x", .primary, none, 0, none⟩,
       ⟨2, some "a", some "y", .secondary, some 1, 1, none⟩] 1
      ⟨1, some "a", some "x", .primary, none, 0, none⟩).2.1 "a" rfl (by decide),
   (composer_correct
      [⟨1, some "a", some "x", .primary, none, 0, none⟩,
       ⟨2, some "a", some "y", .secondary, some 1, 1, none⟩] 1
      ⟨1, some "a", some "x", .primary, none, 0, none⟩).2.2 "x" rfl (by decide)⟩

/-- C10: a request whose email and phone are both falsy (absent or the
empty string) is rejected with the validation error and the store is
untouched; an empty-string value in either field — email or phoneNumber —
is never used as a match condition and is stored as null on created
contacts. -/
theorem empty_input_rejected :
    (∀ (db : DB) (e p : Option String) (tx : TxOutcome),
      truthy e = false → truthy p = false →
      identify db e p tx =
        (db, Except.error "At least one of email or phoneNumber is required.")) ∧
    (∀ (p : Option String) (c : Contact),
      matchesRequest (some "") p c = matchesRequest none p c) ∧
    (∀ (e : Option String) (c : Contact),
      matchesRequest e (some "") c = matchesRequest e none c) ∧
    (∀ (db : DB) (v : Option String) (prec : Precedence) (li : Option Nat),
      (createContact db (some "") v prec li).2.email = none ∧
      (createContact db v (some "") prec li).2.phoneNumber = none) := by
  refine ⟨?_, ?_, ?_, ?_⟩
  · intro db e p tx he hp
    exact identify_guard db e p tx (by rw [he, hp]; rfl)
  · intro p c
    simp [matchesRequest, truthy]
  · intro e c
    simp [matchesRequest, truthy]
  · intro db v prec li
    exact ⟨by simp [createContact, orNull, truthy], by simp [createContact, orNull, truthy]⟩

/-- Witness for C10: the all-empty request is rejected, an empty-string
email and an empty-string phone each match exactly what an absent field
matches, and empty strings are stored as null. -/
theorem empty_input_rejected_witness :
    identify dbOnePrimary (some "") none .commit =
      (dbOnePrimary, Except.error "At least one of email or phoneNumber is required.") ∧
    matchesRequest (some "") (some "p")
      ⟨2, none, some "p", .primary, none, 1, none⟩ =
      matchesRequest none (some "p") ⟨2, none, some "p", .primary, none, 1, none⟩ ∧
    matchesRequest (some "a") (some "")
      ⟨1, some "a", none, .primary, none, 0, none⟩ =
      matchesRequest (some "a") none ⟨1, some "a", none, .primary, none, 0, none⟩ ∧
    (createContact dbOnePrimary (some "") (some "p") .primary none).2.email = none :=
  ⟨empty_input_rejected.1 dbOnePrimary (some "") none .commit (by decide) (by decide),
   empty_input_rejected.2.1 (some "p") ⟨2, none, some "p", .primary, none, 1, none⟩,
   empty_input_rejected.2.2.1 (some "a") ⟨1, some "a", none, .primary, none, 0, none⟩,
   (empty_input_rejected.2.2.2 dbOnePrimary (some "p") .primary none).1⟩

/-- C5: reconciliation is idempotent after a merge — if a request on a
well-formed store performed a merge (two or more roots) and returned
successfully, re-submitting the same request leaves the store unchanged
(no new row) and returns the same `primaryContatctId`, whatever the
transaction outcome of the second run. -/
theorem identify_idempotent_after_merge
    (db db1 : DB) (e p : Option String) (resp : IdentifyResponse) (tx : TxOutcome)
    (hdb : GoodDB db)
    (hmerge : 2 ≤ (rootsOf db e p).length)
    (h1 : identify db e p .commit = (db1, Except.ok resp)) :
    (identify db1 e p tx).1 = db1 ∧
    ∃ resp2, (identify db1 e p tx).2 = Except.ok resp2 ∧
      resp2.primaryContatctId = resp.primaryContatctId := by
  have hg : (!truthy e && !truthy p) = false := by
    by_cases hgt : (!truthy e && !truthy p) = true
    · rw [identify_guard db e p .commit hgt] at h1
      injection h1 with _ h2
      cases h2
    · cases hv : (!truthy e && !truthy p)
      · rfl
      · exact absurd hv hgt
  have hguard : truthy e = true ∨ truthy p = true := by
    cases hte : truthy e with
    | true => exact Or.inl rfl
    | false =>
      cases htp : truthy p with
      | true => exact Or.inr rfl
      | false =>
        rw [hte, htp] at hg
        cases hg
  cases hroots : rootsOf db e p with
  | nil =>
    rw [hroots] at hmerge
    simp at hmerge
  | cons r rest =>
    cases rest with
    | nil =>
      rw [hroots] at hmerge
      simp at hmerge
    | cons r2 rest2 =>
      cases hfp : fetchPrimaries db (r :: r2 :: rest2) with
      | nil =>
        rw [identify_fetchnil db e p .commit r r2 rest2 hg hroots hfp] at h1
        injection h1 with _ h2
        cases h2
      | cons o os =>
        rw [identify_merge_commit db e p r r2 rest2 o os hg hroots hfp] at h1
        have hfp' : fetchPrimaries db (rootsOf db e p) = o :: os := by
          rw [hroots]
          exact hfp
        obtain ⟨homem, hoprim, honone, honot, hothers, hcover⟩ := merge_ctx hdb hfp'
        have hmerged : GoodDB (mergeUnit db (os.map Contact.id) o.id) :=
          goodDB_mergeUnit hdb ⟨o, homem, rfl, hoprim⟩ honot hothers
        have ho_fix : mergeOne (os.map Contact.id) o.id o = o :=
          mergeOne_untouched honot (fun l hl => by rw [honone] at hl; cases hl)
        have ho_in : o ∈ (mergeUnit db (os.map Contact.id) o.id).contacts := by
          rw [mergeUnit_contacts]
          exact List.mem_map.2 ⟨o, homem, ho_fix⟩
        have hkeyM := rootKey_merge hdb hfp'
        obtain ⟨hA, hB, hC, hD⟩ :=
          afterMerge_post hmerged ⟨o, ho_in, rfl, hoprim⟩ h1
        have hgood1 : GoodDB db1 := by
          have hh := goodDB_afterMerge hmerged ⟨o, ho_in, rfl, hoprim⟩ hkeyM
          rw [h1] at hh
          exact hh
        have hkey1 : RootKey db1 o.id e p := by
          have hh := rootKey_afterMerge hkeyM
          rw [h1] at hh
          exact hh
        have hroots1 : rootsOf db1 e p = [o.id] :=
          roots_single_of hkey1 hC hD hguard
        have hnoop := identify_noop tx hkey1 hroots1 hB hC hD hguard
        refine ⟨hnoop.1, ?_⟩
        obtain ⟨resp2, hr2, hr2id⟩ := hnoop.2
        exact ⟨resp2, hr2, by rw [hr2id, hA]⟩

/-- Witness for C5: rerunning the merging request on the two-primary
store. -/
theorem identify_idempotent_after_merge_witness :
    (identify
        ⟨[⟨1, some "a", none, .primary, none, 0, none⟩,
          ⟨2, none, some "p", .secondary, some 1, 1, none⟩], 3, 2⟩
        (some "a") (some "p") .commit).1 =
      ⟨[⟨1, some "a", none, .primary, none, 0, none⟩,
        ⟨2, none, some "p", .secondary, some 1, 1, none⟩], 3, 2⟩ ∧
    ∃ resp2,
      (identify
          ⟨[⟨1, some "a", none, .primary, none, 0, none⟩,
            ⟨2, none, some "p", .secondary, some 1, 1, none⟩], 3, 2⟩
          (some "a") (some "p") .commit).2 = Except.ok resp2 ∧
      resp2.primaryContatctId =
        (⟨1, ["a"], ["p"], [2]⟩ : IdentifyResponse).primaryContatctId :=
  identify_idempotent_after_merge dbTwoPrimaries
    ⟨[⟨1, some "a", none, .primary, none, 0, none⟩,
      ⟨2, none, some "p", .secondary, some 1, 1, none⟩], 3, 2⟩
    (some "a") (some "p") ⟨1, ["a"], ["p"], [2]⟩ .commit
    (by decide) (by decide) rfl

/-- A store with a soft-deleted secondary pointing at a primary that a
merge will demote. -/
def dbDeletedSecondary : DB :=
  ⟨[⟨1, some "a", none, .primary, none, 0, none⟩,
    ⟨2, none, some "p", .primary, none, 1, none⟩,
    ⟨3, none, none, .secondary, some 2, 2, some 5⟩], 4, 3⟩

/-- Counterexample to C8 as stated: contact 3 is soft-deleted
(`deletedAt = some 5`) and linked to primary 2, yet the merging request
`{a, p}` rewrites its `linkedId` from 2 to 1 — the Merger's relink write
has no `deletedAt` filter, so a soft-deleted contact gains a new edge. -/
theorem deleted_contact_modified_ctrex :
    dbDeletedSecondary.contacts.get? 2 =
      some ⟨3, none, none, .secondary, some 2, 2, some 5⟩ ∧
    (identify dbDeletedSecondary (some "a") (some "p") .commit).1.contacts.get? 2 =
      some ⟨3, none, none, .secondary, some 1, 2, some 5⟩ := by
  constructor
  · rfl
  · rfl

/-- C8 amended: soft-deleted contacts are excluded from all matching and
cluster composition, contact creation never touches an existing row, and
the Merger's writes leave a contact unchanged unless its id is a demoted
primary or its `linkedId` points at one — but they do not filter on
`deletedAt`, so a soft-deleted contact in one of those two positions is
modified. -/
theorem deleted_frozen_amended :
    (∀ (db : DB) (e p : Option String) (root : Nat) (c : Contact),
      c ∈ db.contacts → c.deletedAt ≠ none →
        c ∉ matchingContacts db e p ∧ c ∉ fetchCluster db root) ∧
    (∀ (others : List Nat) (root : Nat) (c : Contact),
      c.id ∉ others → (∀ l, c.linkedId = some l → l ∉ others) →
        relinkOne others root (demoteOne others root c) = c) ∧
    (∀ (db : DB) (e p : Option String) (prec : Precedence) (li : Option Nat),
      (createContact db e p prec li).1.contacts =
        db.contacts ++ [(createContact db e p prec li).2]) := by
  refine ⟨?_, ?_, ?_⟩
  · intro db e p root c _ hdel
    constructor
    · intro hmem
      exact hdel (mem_matchingContacts.1 hmem).2.1
    · intro hmem
      exact hdel (mem_fetchCluster.1 hmem).2.1
  · intro others root c h1 h2
    exact mergeOne_untouched h1 h2
  · intro db e p prec li
    rfl

/-- Witness for the amended C8 on the store with the deleted secondary. -/
theorem deleted_frozen_amended_witness :
    ((⟨3, none, none, .secondary, some 2, 2, some 5⟩ : Contact) ∉
        matchingContacts dbDeletedSecondary (some "a") (some "p") ∧
      (⟨3, none, none, .secondary, some 2, 2, some 5⟩ : Contact) ∉
        fetchCluster dbDeletedSecondary 1) ∧
    relinkOne [9] 1 (demoteOne [9] 1 ⟨3, none, none, .secondary, some 2, 2, some 5⟩) =
      ⟨3, none, none, .secondary, some 2, 2, some 5⟩ ∧
    (createContact dbDeletedSecondary (some "b") none .secondary (some 1)).1.contacts =
      dbDeletedSecondary.contacts ++
        [(createContact dbDeletedSecondary (some "b") none .secondary (some 1)).2] :=
  ⟨deleted_frozen_amended.1 dbDeletedSecondary (some "a") (some "p") 1
      ⟨3, none, none, .secondary, some 2, 2, some 5⟩ (by decide) (by decide),
   deleted_frozen_amended.2.1 [9] 1 ⟨3, none, none, .secondary, some 2, 2, some 5⟩
      (by decide)
      (by
        intro l hl
        cases hl
        decide),
   deleted_frozen_amended.2.2 dbDeletedSecondary (some "b") none .secondary (some 1)⟩

/-- The §3 data-model invariants alone: `linkedId` is present exactly on
secondaries and always resolves to an existing primary. -/
def InvDM (db : DB) : Prop :=
  (∀ c ∈ db.contacts, (c.linkPrecedence = .primary ↔ c.linkedId = none)) ∧
  (∀ c ∈ db.contacts, c.linkPrecedence = .secondary → resolvesToPrimary db c.linkedId)

instance (db : DB) : Decidable (InvDM db) := by
  unfold InvDM
  exact inferInstance

/-- Three single-member clusters satisfying the §3 invariants, two of them
sharing the email `a`. -/
def dbSharedEmail : DB :=
  ⟨[⟨1, some "a", none, .primary, none, 0, none⟩,
    ⟨2, some "a", none, .primary, none, 1, none⟩,
    ⟨3, none, some "p", .primary, none, 2, none⟩], 4, 3⟩

/-- Counterexample to C9 as stated: a store satisfying the data-model
invariants of §3 in which one request resolves three distinct roots — the
email alone contributes two — so "at most 2 roots" does not follow from
those invariants alone. -/
theorem resolver_roots_ctrex :
    InvDM dbSharedEmail ∧
    (rootsOf dbSharedEmail (some "a") (some "p")).length = 3 ∧
    ¬(rootsOf dbSharedEmail (some "a") (some "p")).length ≤ 2 := by
  refine ⟨by decide, rfl, by decide⟩

/-- C9 amended: in every store reachable from the empty store by
reconciliation requests, one request resolves at most two distinct roots —
all email-matched rows share one root and all phone-matched rows share
one. -/
theorem resolver_roots_bounded {db : DB} (h : Reachable db) (e p : Option String) :
    (rootsOf db e p).length ≤ 2 := by
  have hdb := reachable_goodDB h
  by_contra hlen
  cases hl : rootsOf db e p with
  | nil =>
    rw [hl] at hlen
    simp at hlen
  | cons x1 t1 =>
    cases t1 with
    | nil =>
      rw [hl] at hlen
      simp at hlen
    | cons x2 t2 =>
      cases t2 with
      | nil =>
        rw [hl] at hlen
        simp at hlen
      | cons x3 t3 =>
        have hnd : (x1 :: x2 :: x3 :: t3).Nodup := by
          rw [← hl]
          exact nodup_primaryIdsOf _
        have h12 : x1 ≠ x2 := by
          intro hx
          subst hx
          exact (List.nodup_cons.1 hnd).1 (List.mem_cons_self _ _)
        have h13 : x1 ≠ x3 := by
          intro hx
          subst hx
          exact (List.nodup_cons.1 hnd).1
            (List.mem_cons_of_mem _ (List.mem_cons_self _ _))
        have h23 : x2 ≠ x3 := by
          intro hx
          subst hx
          exact (List.nodup_cons.1 (List.nodup_cons.1 hnd).2).1 (List.mem_cons_self _ _)
        have hget : ∀ x, x ∈ rootsOf db e p →
            ∃ c ∈ matchingContacts db e p, rootOf c = some x :=
          fun x hx => mem_primaryIdsOf.1 hx
        obtain ⟨c1, hc1, hr1⟩ := hget x1 (by rw [hl]; simp)
        obtain ⟨c2, hc2, hr2⟩ := hget x2 (by rw [hl]; simp)
        obtain ⟨c3, hc3, hr3⟩ := hget x3 (by rw [hl]; simp)
        have hcase : ∀ c ∈ matchingContacts db e p,
            (truthy e = true ∧ c.email = e) ∨ (truthy p = true ∧ c.phoneNumber = p) :=
          fun c hc => matchesRequest_cases (mem_matchingContacts.1 hc).2.2
        have useE : ∀ (ca cb : Contact) (a b : Nat), ca ∈ matchingContacts db e p →
            cb ∈ matchingContacts db e p → rootOf ca = some a → rootOf cb = some b →
            (truthy e = true ∧ ca.email = e) → (truthy e = true ∧ cb.email = e) →
            a = b := by
          rintro ca cb a b hca hcb hra hrb ⟨hte, hae⟩ ⟨_, hbe⟩
          obtain ⟨hadb, hadel, _⟩ := mem_matchingContacts.1 hca
          obtain ⟨hbdb, hbdel, _⟩ := mem_matchingContacts.1 hcb
          have hh := (hdb.2.2.2.2 ca hadb cb hbdb hadel hbdel).1
            (by rw [hae]; exact hte) (by rw [hae, hbe])
          rw [hra, hrb] at hh
          exact Option.some_injective _ hh
        have useP : ∀ (ca cb : Contact) (a b : Nat), ca ∈ matchingContacts db e p →
            cb ∈ matchingContacts db e p → rootOf ca = some a → rootOf cb = some b →
            (truthy p = true ∧ ca.phoneNumber = p) →
            (truthy p = true ∧ cb.phoneNumber = p) → a = b := by
          rintro ca cb a b hca hcb hra hrb ⟨htp, hap⟩ ⟨_, hbp⟩
          obtain ⟨hadb, hadel, _⟩ := mem_matchingContacts.1 hca
          obtain ⟨hbdb, hbdel, _⟩ := mem_matchingContacts.1 hcb
          have hh := (hdb.2.2.2.2 ca hadb cb hbdb hadel hbdel).2
            (by rw [hap]; exact htp) (by rw [hap, hbp])
          rw [hra, hrb] at hh
          exact Option.some_injective _ hh
        rcases hcase c1 hc1 with m1 | m1 <;> rcases hcase c2 hc2 with m2 | m2 <;>
          rcases hcase c3 hc3 with m3 | m3
        · exact h12 (useE c1 c2 x1 x2 hc1 hc2 hr1 hr2 m1 m2)
        · exact h12 (useE c1 c2 x1 x2 hc1 hc2 hr1 hr2 m1 m2)
        · exact h13 (useE c1 c3 x1 x3 hc1 hc3 hr1 hr3 m1 m3)
        · exact h23 (useP c2 c3 x2 x3 hc2 hc3 hr2 hr3 m2 m3)
        · exact h23 (useE c2 c3 x2 x3 hc2 hc3 hr2 hr3 m2 m3)
        · exact h13 (useP c1 c3 x1 x3 hc1 hc3 hr1 hr3 m1 m3)
        · exact h12 (useP c1 c2 x1 x2 hc1 hc2 hr1 hr2 m1 m2)
        · exact h12 (useP c1 c2 x1 x2 hc1 hc2 hr1 hr2 m1 m2)

/-- Witness for the amended C9 at a reachable store. -/
theorem resolver_roots_bounded_witness :
    (rootsOf (identify emptyDB (some "a") none .commit).1
      (some "a") (some "p")).length ≤ 2 :=
  resolver_roots_bounded
    (Reachable.step emptyDB (some "a") none .commit Reachable.init)
    (some "a") (some "p")

end Reconcile
